
import Mathlib

set_option maxRecDepth 2000

/-!
# Verification of the DraftPlan scene-graph / coordinate core

Shallow embedding of the hierarchical transform engine, hierarchy mutators,
view projection, alignment/distribution and per-document history manager of
the DraftPlan drafting application, together with proofs of the spec's
testable properties.

Conventions of the embedding:
* JavaScript `number` is modelled by `ℚ` (the source performs only field
  arithmetic on literals; we reason in exact arithmetic).
* `string` ids are `String`; `undefined` parent references are `Option`.
* The source's recursive traversals (`computeWorldTransform`,
  `getAncestors`, `getDescendants`) recurse along untracked parent/child
  links and would diverge on a malformed (cyclic) store, so each is embedded
  with an explicit fuel parameter modelling the JS call stack / loop budget;
  the canonical wrappers fix a fuel of 512, far above the documented
  128-level depth limit of the data model.
* TypeScript record updates (object spread) are record updates; array `map`
  / `filter` / `find` are the corresponding `List` operations.
-/

namespace DraftPlan

/-- 3-component vector (`Vector3D` in `src/types`). -/
structure Vector3D where
  x : ℚ
  y : ℚ
  z : ℚ
deriving DecidableEq, Repr

/-- `WorldTransform { position, rotation }`. -/
structure WorldTransform where
  position : Vector3D
  rotation : Vector3D
deriving DecidableEq, Repr

/-- Width/height/depth dimension box. -/
structure Dimensions where
  width : ℚ
  height : ℚ
  depth : ℚ
deriving DecidableEq, Repr

/-- A drafted object node (`DraftObject`): carries a local transform and an
optional parent reference (an id, never a pointer). -/
structure DraftObject where
  id : String
  name : String
  parentId : Option String
  localPosition : Vector3D
  rotation : Vector3D
  dimensions : Dimensions
deriving DecidableEq, Repr

/-- An assembly node (`Assembly`): a massless grouping node with an ordered
`childIds` list and an optional parent reference. -/
structure Assembly where
  id : String
  name : String
  parentId : Option String
  childIds : List String
  color : String
  visible : Bool
deriving DecidableEq, Repr

/-- A node is either a `DraftObject` (left) or an `Assembly` (right);
`findNode` in the source distinguishes them by the presence of
`localPosition` / `childIds`. -/
abbrev Node := Sum DraftObject Assembly

/-- `findNode`: look up an id first among the objects, then among the
assemblies (`transforms.ts`). -/
def findNode (nodeId : String) (objects : List DraftObject)
    (assemblies : List Assembly) : Option Node :=
  match objects.find? (fun o => o.id == nodeId) with
  | some o => some (Sum.inl o)
  | none =>
    match assemblies.find? (fun a => a.id == nodeId) with
    | some a => some (Sum.inr a)
    | none => none

/-- `addVectors` (componentwise sum). -/
def addVectors (a b : Vector3D) : Vector3D :=
  { x := a.x + b.x, y := a.y + b.y, z := a.z + b.z }

/-- `subtractVectors` (componentwise difference `a - b`). -/
def subtractVectors (a b : Vector3D) : Vector3D :=
  { x := a.x - b.x, y := a.y - b.y, z := a.z - b.z }

/-- The zero vector. -/
def zeroVec : Vector3D := { x := 0, y := 0, z := 0 }

/-- The identity transform, returned for unknown ids and for assemblies. -/
def identityTransform : WorldTransform :=
  { position := zeroVec, rotation := zeroVec }

/-- `computeWorldTransform` (transforms.ts), with explicit recursion fuel:
unknown ids and assemblies yield the identity transform, a parentless object
returns its local transform, and otherwise the parent's world transform is
resolved recursively and the node's local position / rotation are added. -/
def computeWorldTransformF :
    ℕ → String → List DraftObject → List Assembly → WorldTransform
  | 0, _, _, _ => identityTransform
  | fuel + 1, nodeId, objects, assemblies =>
    match findNode nodeId objects assemblies with
    | none => identityTransform
    | some (Sum.inr _) => identityTransform
    | some (Sum.inl node) =>
      match node.parentId with
      | none => { position := node.localPosition, rotation := node.rotation }
      | some pid =>
        let parentTransform := computeWorldTransformF fuel pid objects assemblies
        { position := addVectors parentTransform.position node.localPosition,
          rotation := addVectors parentTransform.rotation node.rotation }

/-- Canonical fuel for the recursive traversals: far above the documented
128-level depth limit. -/
def stdFuel : ℕ := 512

/-- `computeWorldTransform(nodeId, objects, assemblies)`. -/
def computeWorldTransform (nodeId : String) (objects : List DraftObject)
    (assemblies : List Assembly) : WorldTransform :=
  computeWorldTransformF stdFuel nodeId objects assemblies

/-- `worldToLocalPosition(worldPos, parentId, objects, assemblies)`:
without a parent the world position is the local position, otherwise the
parent's resolved world position is subtracted. -/
def worldToLocalPosition (worldPos : Vector3D) (parentId : Option String)
    (objects : List DraftObject) (assemblies : List Assembly) : Vector3D :=
  match parentId with
  | none => worldPos
  | some pid =>
    subtractVectors worldPos (computeWorldTransform pid objects assemblies).position

/-- The ids enqueued for one dequeued node of the descendant traversal
(the loop body of `getDescendants`): an assembly contributes its `childIds`;
an object contributes every object and assembly whose `parentId` is the
current id (objects may parent nodes without being tracked in any list);
a missing id contributes nothing (`continue`). -/
def bfsChildren (currentId : String) (objects : List DraftObject)
    (assemblies : List Assembly) : List String :=
  match findNode currentId objects assemblies with
  | none => []
  | some (Sum.inr asm) => asm.childIds
  | some (Sum.inl _) =>
    (objects.filter (fun o => o.parentId == some currentId)).map (fun o => o.id)
      ++ (assemblies.filter (fun a => a.parentId == some currentId)).map (fun a => a.id)

/-- The breadth-first loop of `getDescendants`, with one unit of fuel per
dequeued id (the source's `while (queue.length > 0)` loop). -/
def getDescendantsLoop :
    ℕ → List String → List String → List DraftObject → List Assembly → List String
  | 0, _, acc, _, _ => acc
  | _ + 1, [], acc, _, _ => acc
  | fuel + 1, currentId :: queue, acc, objects, assemblies =>
    let cs := bfsChildren currentId objects assemblies
    getDescendantsLoop fuel (queue ++ cs) (acc ++ cs) objects assemblies

/-- `getDescendants(nodeId, objects, assemblies)` with explicit fuel:
returns `[]` for an unknown id, otherwise runs the dual breadth-first
traversal starting from a queue holding `nodeId`. -/
def getDescendantsF (fuel : ℕ) (nodeId : String) (objects : List DraftObject)
    (assemblies : List Assembly) : List String :=
  match findNode nodeId objects assemblies with
  | none => []
  | some _ => getDescendantsLoop fuel [nodeId] [] objects assemblies

/-- `getDescendants` at the canonical fuel. -/
def getDescendants (nodeId : String) (objects : List DraftObject)
    (assemblies : List Assembly) : List String :=
  getDescendantsF stdFuel nodeId objects assemblies

/-- Whether the descendant traversal's queue empties within the given fuel
(the source loop runs to completion); decidable side condition used to
transport loop invariants to the traversal's result. -/
def bfsDone : ℕ → List String → List DraftObject → List Assembly → Bool
  | 0, _, _, _ => false
  | _ + 1, [], _, _ => true
  | fuel + 1, currentId :: queue, objects, assemblies =>
    bfsDone fuel (queue ++ bfsChildren currentId objects assemblies) objects assemblies

/-- The parent-walk of `getAncestors` (the source's `while (currentNode.parentId)`
loop), with one unit of fuel per step: pushes each `parentId` and stops when
a node has no parent or the parent id cannot be resolved. -/
def getAncestorsLoop :
    ℕ → Node → List String → List DraftObject → List Assembly → List String
  | 0, _, acc, _, _ => acc
  | fuel + 1, current, acc, objects, assemblies =>
    match Sum.elim DraftObject.parentId Assembly.parentId current with
    | none => acc
    | some pid =>
      match findNode pid objects assemblies with
      | none => acc ++ [pid]
      | some parentNode =>
        getAncestorsLoop fuel parentNode (acc ++ [pid]) objects assemblies

/-- `getAncestors(nodeId, objects, assemblies)` with explicit fuel. -/
def getAncestorsF (fuel : ℕ) (nodeId : String) (objects : List DraftObject)
    (assemblies : List Assembly) : List String :=
  match findNode nodeId objects assemblies with
  | none => []
  | some node => getAncestorsLoop fuel node [] objects assemblies

/-- `getAncestors` at the canonical fuel. -/
def getAncestors (nodeId : String) (objects : List DraftObject)
    (assemblies : List Assembly) : List String :=
  getAncestorsF stdFuel nodeId objects assemblies

/-- Result type of `validateHierarchy`: `valid` flag plus optional error. -/
structure ValidationResult where
  valid : Bool
  error : Option String
deriving DecidableEq, Repr

/-- `validateHierarchy(nodeId, newParentId, objects, assemblies)`: no parent
is always valid; rejects parenting a node to itself, to one of its
descendants (cycle), or below a 128-deep ancestor chain. -/
def validateHierarchy (nodeId : String) (newParentId : Option String)
    (objects : List DraftObject) (assemblies : List Assembly) : ValidationResult :=
  match newParentId with
  | none => { valid := true, error := none }
  | some pid =>
    if nodeId = pid then
      { valid := false, error := some "Cannot parent node to itself" }
    else if pid ∈ getDescendants nodeId objects assemblies then
      { valid := false,
        error := some "Cannot parent to own descendant (would create cycle)" }
    else if 128 ≤ (getAncestors pid objects assemblies).length then
      { valid := false, error := some "Maximum hierarchy depth (128 levels) reached" }
    else
      { valid := true, error := none }

/-- `reparentNode(nodeId, newParentId, objects, assemblies)` (operations.ts):
on a failed validation or an unknown node both collections are returned
unchanged; otherwise an object's `localPosition` is recomputed relative to
the new parent so that its world position is preserved, `parentId` is
rewritten, and the old / new parents' `childIds` lists are repaired. -/
def reparentNode (nodeId : String) (newParentId : Option String)
    (objects : List DraftObject) (assemblies : List Assembly) :
    List DraftObject × List Assembly :=
  if (validateHierarchy nodeId newParentId objects assemblies).valid = false then
    (objects, assemblies)
  else
    match findNode nodeId objects assemblies with
    | none => (objects, assemblies)
    | some node =>
      let oldParentId := Sum.elim DraftObject.parentId Assembly.parentId node
      let updatedObjects :=
        match node with
        | Sum.inl _ =>
          let worldTransform := computeWorldTransform nodeId objects assemblies
          let newLocalPosition :=
            worldToLocalPosition worldTransform.position newParentId objects assemblies
          objects.map (fun obj =>
            if obj.id = nodeId then
              { obj with parentId := newParentId, localPosition := newLocalPosition }
            else obj)
        | Sum.inr _ => objects
      let updatedAssemblies :=
        match node with
        | Sum.inl _ => assemblies
        | Sum.inr _ =>
          assemblies.map (fun asm =>
            if asm.id = nodeId then { asm with parentId := newParentId } else asm)
      let updatedAssemblies2 :=
        match oldParentId with
        | none => updatedAssemblies
        | some oldPid =>
          updatedAssemblies.map (fun asm =>
            if asm.id = oldPid then
              { asm with childIds := asm.childIds.filter (fun cid => cid ≠ nodeId) }
            else asm)
      let updatedAssemblies3 :=
        match newParentId with
        | none => updatedAssemblies2
        | some newPid =>
          updatedAssemblies2.map (fun asm =>
            if asm.id = newPid ∧ nodeId ∉ asm.childIds then
              { asm with childIds := asm.childIds ++ [nodeId] }
            else asm)
      (updatedObjects, updatedAssemblies3)

/-- `deleteNodeCascade(nodeId, objects, assemblies)`: removes the node and
every descendant from both collections and strips the deleted id from the
former parent's `childIds`. -/
def deleteNodeCascade (nodeId : String) (objects : List DraftObject)
    (assemblies : List Assembly) : List DraftObject × List Assembly :=
  let descendants := getDescendants nodeId objects assemblies
  let idsToDelete := nodeId :: descendants
  let updatedObjects := objects.filter (fun obj => obj.id ∉ idsToDelete)
  let updatedAssemblies := assemblies.filter (fun asm => asm.id ∉ idsToDelete)
  match findNode nodeId objects assemblies with
  | some node =>
    match Sum.elim DraftObject.parentId Assembly.parentId node with
    | some parentId =>
      (updatedObjects,
        updatedAssemblies.map (fun asm =>
          if asm.id = parentId then
            { asm with childIds := asm.childIds.filter (fun cid => cid ≠ nodeId) }
          else asm))
    | none => (updatedObjects, updatedAssemblies)
  | none => (updatedObjects, updatedAssemblies)

/-- JavaScript `Math.round`: rounds half toward positive infinity. -/
def jsRound (q : ℚ) : ℤ := ⌊q + 1 / 2⌋

/-- `snapToGrid(value, gridSize) = Math.round(value / gridSize) * gridSize`. -/
def snapToGrid (value : ℚ) (gridSize : ℚ) : ℚ :=
  (jsRound (value / gridSize) : ℚ) * gridSize

/-- `snapVectorToGrid`: apply `snapToGrid` to each component. -/
def snapVectorToGrid (vector : Vector3D) (gridSize : ℚ) : Vector3D :=
  { x := snapToGrid vector.x gridSize,
    y := snapToGrid vector.y gridSize,
    z := snapToGrid vector.z gridSize }

/-- The ten fixed view tags (`ViewType` in `src/types`). -/
inductive ViewType where
  | front | back | left | right | top | bottom
  | isoFrontRight | isoFrontLeft | isoBackRight | isoBackLeft
deriving DecidableEq, Repr

/-- A `THREE.OrthographicCamera` as consumed by `unproject`: frustum planes,
zoom, and a rigid world placement given by the rotation columns and origin of
`matrixWorld` (the app orients its cameras with `position`/`up`/`lookAt`, so
`matrixWorld` is always a rotation plus a translation). -/
structure OrthographicCamera where
  left : ℚ
  right : ℚ
  top : ℚ
  bottom : ℚ
  near : ℚ
  far : ℚ
  zoom : ℚ
  position : Vector3D
  xAxis : Vector3D
  yAxis : Vector3D
  zAxis : Vector3D
deriving DecidableEq, Repr

/-- Scale a vector by a rational. -/
def smulVec (c : ℚ) (v : Vector3D) : Vector3D :=
  { x := c * v.x, y := c * v.y, z := c * v.z }

/-- Dot product of two vectors. -/
def dotVec (a b : Vector3D) : ℚ := a.x * b.x + a.y * b.y + a.z * b.z

/-- `THREE.Vector3.unproject(camera)` applied to an NDC point `(nx, ny, 0)`:
the inverse orthographic projection places the point at
`(nx·(right-left)/(2·zoom) + (right+left)/2, ny·(top-bottom)/(2·zoom) + (top+bottom)/2, -(far+near)/2)`
in camera space, and `matrixWorld` carries it to world space. -/
def unprojectNDC (camera : OrthographicCamera) (nx ny : ℚ) : Vector3D :=
  let camX := nx * ((camera.right - camera.left) / (2 * camera.zoom))
    + (camera.right + camera.left) / 2
  let camY := ny * ((camera.top - camera.bottom) / (2 * camera.zoom))
    + (camera.top + camera.bottom) / 2
  let camZ := -(camera.far + camera.near) / 2
  addVectors camera.position
    (addVectors (smulVec camX camera.xAxis)
      (addVectors (smulVec camY camera.yAxis) (smulVec camZ camera.zAxis)))

/-- `screenToWorld(screenX, screenY, camera, view, canvasWidth, canvasHeight)`
(coordinates.ts): pixel coordinates to NDC, unprojection through the
orthographic camera, then the per-view remapping switch (isometric views
split screen-right between two axes with the literal factor `0.707`). -/
def screenToWorld (screenX screenY : ℚ) (camera : OrthographicCamera)
    (view : ViewType) (canvasWidth canvasHeight : ℚ) : Vector3D :=
  let ndcX := screenX / canvasWidth * 2 - 1
  let ndcY := -(screenY / canvasHeight) * 2 + 1
  let vector := unprojectNDC camera ndcX ndcY
  match view with
  | .front => { x := vector.x, y := vector.y, z := 0 }
  | .back => { x := -vector.x, y := vector.y, z := 0 }
  | .top => { x := vector.x, y := 0, z := -vector.y }
  | .bottom => { x := vector.x, y := 0, z := vector.y }
  | .left => { x := 0, y := vector.y, z := vector.x }
  | .right => { x := 0, y := vector.y, z := -vector.x }
  | .isoFrontRight =>
    { x := vector.x * (707 / 1000), y := vector.y, z := vector.x * (707 / 1000) }
  | .isoFrontLeft =>
    { x := -vector.x * (707 / 1000), y := vector.y, z := vector.x * (707 / 1000) }
  | .isoBackRight =>
    { x := vector.x * (707 / 1000), y := vector.y, z := -vector.x * (707 / 1000) }
  | .isoBackLeft =>
    { x := -vector.x * (707 / 1000), y := vector.y, z := -vector.x * (707 / 1000) }

/-- `screenDeltaToWorldDelta(deltaScreenX, deltaScreenY, camera, view,
canvasWidth, canvasHeight)`: pixel deltas scaled by the viewport-to-world
ratio, then the same per-view remapping switch. -/
def screenDeltaToWorldDelta (deltaScreenX deltaScreenY : ℚ)
    (camera : OrthographicCamera) (view : ViewType)
    (canvasWidth canvasHeight : ℚ) : Vector3D :=
  let viewHeight := (camera.top - camera.bottom) / camera.zoom
  let viewWidth := (camera.right - camera.left) / camera.zoom
  let ndcDeltaX := deltaScreenX / canvasWidth * 2
  let ndcDeltaY := -(deltaScreenY / canvasHeight) * 2
  let worldDeltaX := ndcDeltaX * (viewWidth / 2)
  let worldDeltaY := ndcDeltaY * (viewHeight / 2)
  match view with
  | .front => { x := worldDeltaX, y := worldDeltaY, z := 0 }
  | .back => { x := -worldDeltaX, y := worldDeltaY, z := 0 }
  | .top => { x := worldDeltaX, y := 0, z := -worldDeltaY }
  | .bottom => { x := worldDeltaX, y := 0, z := worldDeltaY }
  | .left => { x := 0, y := worldDeltaY, z := worldDeltaX }
  | .right => { x := 0, y := worldDeltaY, z := -worldDeltaX }
  | .isoFrontRight =>
    { x := worldDeltaX * (707 / 1000), y := worldDeltaY, z := worldDeltaX * (707 / 1000) }
  | .isoFrontLeft =>
    { x := -worldDeltaX * (707 / 1000), y := worldDeltaY, z := worldDeltaX * (707 / 1000) }
  | .isoBackRight =>
    { x := worldDeltaX * (707 / 1000), y := worldDeltaY, z := -worldDeltaX * (707 / 1000) }
  | .isoBackLeft =>
    { x := -worldDeltaX * (707 / 1000), y := worldDeltaY, z := -worldDeltaX * (707 / 1000) }

instance : Inhabited Vector3D := ⟨zeroVec⟩

instance : Inhabited DraftObject :=
  ⟨{ id := "", name := "", parentId := none, localPosition := zeroVec,
     rotation := zeroVec, dimensions := { width := 1, height := 1, depth := 1 } }⟩

/-- Stable insertion of an element into a key-sorted list: placed before the
first element with a strictly larger key, after equal keys seen earlier. -/
def insertByKey {α : Type} (key : α → ℚ) (x : α) : List α → List α
  | [] => [x]
  | y :: ys => if key x ≤ key y then x :: y :: ys else y :: insertByKey key x ys

/-- Stable sort by a rational key, modelling `Array.prototype.sort` with the
comparator `(a, b) => key(a) - key(b)` (stable per the ECMAScript spec). -/
def sortByKey {α : Type} (key : α → ℚ) : List α → List α
  | [] => []
  | x :: xs => insertByKey key x (sortByKey key xs)

/-- `Map.set` on an association list: overwrite an existing key in place,
otherwise append (JS `Map` preserves insertion order). -/
def mapSet (m : List (String × Vector3D)) (k : String) (v : Vector3D) :
    List (String × Vector3D) :=
  if m.any (fun p => p.1 == k) then
    m.map (fun p => if p.1 == k then (k, v) else p)
  else m ++ [(k, v)]

/-- Distribution axis (`DistributionType` in alignment.ts). -/
inductive DistributionType where
  | horizontal | vertical
deriving DecidableEq, Repr

/-- The coordinate used by a distribution axis. -/
def distCoord (distribution : DistributionType) (v : Vector3D) : ℚ :=
  match distribution with
  | .horizontal => v.x
  | .vertical => v.y

/-- Write the distributed coordinate of a position. -/
def setDistCoord (distribution : DistributionType) (v : Vector3D) (c : ℚ) : Vector3D :=
  match distribution with
  | .horizontal => { v with x := c }
  | .vertical => { v with y := c }

/-- `distributeObjects(objects, distribution)` (alignment.ts): requires at
least 3 objects, sorts by the axis coordinate of the position (centers),
no-ops on zero span, and assigns evenly spaced centers
`extreme + index · span/(n-1)` to every interior object, keeping the first
and last in place. -/
def distributeObjects (objects : List DraftObject)
    (distribution : DistributionType) : List (String × Vector3D) :=
  if objects.length < 3 then []
  else
    let sorted := sortByKey (fun o => distCoord distribution o.localPosition) objects
    let firstCenter := distCoord distribution sorted.headI.localPosition
    let lastCenter := distCoord distribution sorted.getLastI.localPosition
    let totalCenterSpan := lastCenter - firstCenter
    if sorted.length = 2 ∨ totalCenterSpan = 0 then []
    else
      let centerGap := totalCenterSpan / ((sorted.length : ℚ) - 1)
      sorted.enum.foldl
        (fun updates iobj =>
          if iobj.1 = 0 ∨ iobj.1 = sorted.length - 1 then updates
          else
            mapSet updates iobj.2.id
              (setDistCoord distribution iobj.2.localPosition
                (firstCenter + (iobj.1 : ℚ) * centerGap)))
        []

/-- A `{objects, assemblies}` history snapshot (`HistorySnapshot` in
projectStore.ts; the JSON deep clone is the identity on immutable values). -/
structure HistorySnapshot where
  objects : List DraftObject
  assemblies : List Assembly
deriving DecidableEq, Repr, Inhabited

/-- The per-document slice of a `ProjectTab` acted on by the history
manager: the node collections, the two history stacks (arrays pushed/popped
at the back) and the dirty flag. -/
structure ProjectTab where
  objects : List DraftObject
  assemblies : List Assembly
  undoStack : List HistorySnapshot
  redoStack : List HistorySnapshot
  hasUnsavedChanges : Bool
deriving DecidableEq, Repr, Inhabited

/-- `createSnapshot(tab)`. -/
def createSnapshot (tab : ProjectTab) : HistorySnapshot :=
  { objects := tab.objects, assemblies := tab.assemblies }

/-- `undo()` (projectStore.ts): no-op on an empty undo stack; otherwise pop
the last undo snapshot, push the current state onto the redo stack and
install the popped snapshot. -/
def undo (tab : ProjectTab) : ProjectTab :=
  match tab.undoStack.getLast? with
  | none => tab
  | some previousState =>
    { tab with
      objects := previousState.objects
      assemblies := previousState.assemblies
      undoStack := tab.undoStack.dropLast
      redoStack := tab.redoStack ++ [createSnapshot tab]
      hasUnsavedChanges := true }

/-- `redo()` (projectStore.ts): symmetric to `undo`. -/
def redo (tab : ProjectTab) : ProjectTab :=
  match tab.redoStack.getLast? with
  | none => tab
  | some nextState =>
    { tab with
      objects := nextState.objects
      assemblies := nextState.assemblies
      undoStack := tab.undoStack ++ [createSnapshot tab]
      redoStack := tab.redoStack.dropLast
      hasUnsavedChanges := true }

/-- The common shape of every history-pushing mutation in projectStore.ts
(`addObject`, `removeObject`, `updateObjectPosition`, ...): replace the node
collections by a function of the current ones, push the pre-mutation
snapshot onto the undo stack and clear the redo stack. -/
def applyHistoryMutation (f : HistorySnapshot → HistorySnapshot)
    (tab : ProjectTab) : ProjectTab :=
  let snapshot := createSnapshot tab
  let next := f snapshot
  { tab with
    objects := next.objects
    assemblies := next.assemblies
    hasUnsavedChanges := true
    undoStack := tab.undoStack ++ [snapshot]
    redoStack := [] }

/-- `updateObjectPosition(id, worldPosition)` (projectStore.ts, lines
801-827): looks the object up, converts the target world position with
`worldToLocalPosition(worldPosition, obj.id, ...)` — note the source passes
the object's own id, not `obj.parentId`, as the parent argument — and
rewrites the object's `localPosition`, pushing the pre-mutation snapshot. -/
def updateObjectPosition (id : String) (worldPosition : Vector3D)
    (tab : ProjectTab) : ProjectTab :=
  let snapshot := createSnapshot tab
  match tab.objects.find? (fun o => o.id == id) with
  | none => tab
  | some obj =>
    let localPos :=
      worldToLocalPosition worldPosition (some obj.id) tab.objects tab.assemblies
    { tab with
      objects := tab.objects.map (fun o =>
        if o.id == id then { o with localPosition := localPos } else o)
      hasUnsavedChanges := true
      undoStack := tab.undoStack ++ [snapshot]
      redoStack := [] }

/-- The ids visited by the `computeWorldTransform` recursion (the node and
its parent chain, truncated at the fuel bound, at unknown ids and at
assemblies). -/
def reachF : ℕ → String → List DraftObject → List Assembly → List String
  | 0, _, _, _ => []
  | fuel + 1, nodeId, objects, assemblies =>
    nodeId ::
      (match findNode nodeId objects assemblies with
        | some (Sum.inl node) =>
          match node.parentId with
          | some pid => reachF fuel pid objects assemblies
          | none => []
        | _ => [])

/-- Whether the `computeWorldTransform` recursion from a node reaches a
terminal (parentless object, unknown id, or assembly) within the given
fuel — i.e. whether the source recursion terminates at the modelled call
depth. -/
def stopsF : ℕ → String → List DraftObject → List Assembly → Bool
  | 0, _, _, _ => false
  | fuel + 1, nodeId, objects, assemblies =>
    match findNode nodeId objects assemblies with
    | some (Sum.inl node) =>
      match node.parentId with
      | some pid => stopsF fuel pid objects assemblies
      | none => true
    | _ => true

/-! ## Helper lemmas -/

/-- The configuration of C1: a list of objects forming a single parent
chain, the leaf first, each object's `parentId` pointing at the next object
and the last object parentless. -/
def isChainStore : List DraftObject → Prop
  | [] => True
  | [o] => o.parentId = none
  | o :: o' :: rest => o.parentId = some o'.id ∧ isChainStore (o' :: rest)

/-- Componentwise sum of the local positions of a list of objects. -/
def sumPositions (l : List DraftObject) : Vector3D :=
  l.foldr (fun o acc => addVectors o.localPosition acc) zeroVec

/-- Componentwise sum of the rotations of a list of objects. -/
def sumRotations (l : List DraftObject) : Vector3D :=
  l.foldr (fun o acc => addVectors o.rotation acc) zeroVec

/-- Example object for witnesses: `P` at local `(10,0,0)`, no parent. -/
def exP : DraftObject :=
  { id := "P", name := "P", parentId := none,
    localPosition := { x := 10, y := 0, z := 0 },
    rotation := { x := 0, y := 0, z := 0 },
    dimensions := { width := 1, height := 1, depth := 1 } }

/-- Example object for witnesses: `C` at local `(2,3,0)`, parented to `P`. -/
def exC : DraftObject :=
  { id := "C", name := "C", parentId := some "P",
    localPosition := { x := 2, y := 3, z := 0 },
    rotation := { x := 0, y := 0, z := 0 },
    dimensions := { width := 1, height := 1, depth := 1 } }

/-- Apply a sequence of history-pushing mutations in order. -/
def applyMutations (fs : List (HistorySnapshot → HistorySnapshot))
    (tab : ProjectTab) : ProjectTab :=
  fs.foldl (fun t f => applyHistoryMutation f t) tab

/-- A concrete history-pushing mutation for the C5 witness: install `[P]`
as the object list. -/
def exMutation : HistorySnapshot → HistorySnapshot :=
  fun s => { s with objects := [exP] }

/-- An empty tab. -/
def exEmptyTab : ProjectTab :=
  { objects := [], assemblies := [], undoStack := [], redoStack := [],
    hasUnsavedChanges := false }

/-- A tab holding `[P]` with one undo snapshot. -/
def exTabWithHistory : ProjectTab :=
  { objects := [exP], assemblies := [],
    undoStack := [{ objects := [], assemblies := [] }], redoStack := [],
    hasUnsavedChanges := true }

/-- Modelled from the spec's view table (§4.3 and the views module's axis
table): the per-view remapping of the unprojected point's two in-plane
coordinates to the pair of world axes, with the view's sign flips; this is
the spec-side definition compared against `screenToWorld`. -/
def specViewRemap (view : ViewType) (v : Vector3D) : Vector3D :=
  match view with
  | .front => { x := v.x, y := v.y, z := 0 }
  | .back => { x := -v.x, y := v.y, z := 0 }
  | .top => { x := v.x, y := 0, z := -v.y }
  | .bottom => { x := v.x, y := 0, z := v.y }
  | .left => { x := 0, y := v.y, z := v.x }
  | .right => { x := 0, y := v.y, z := -v.x }
  | .isoFrontRight =>
    { x := v.x * (707 / 1000), y := v.y, z := v.x * (707 / 1000) }
  | .isoFrontLeft =>
    { x := -v.x * (707 / 1000), y := v.y, z := v.x * (707 / 1000) }
  | .isoBackRight =>
    { x := v.x * (707 / 1000), y := v.y, z := -v.x * (707 / 1000) }
  | .isoBackLeft =>
    { x := -v.x * (707 / 1000), y := v.y, z := -v.x * (707 / 1000) }

/-- Modelled from the spec's view table: the world direction playing the
role of "depth" for each view — the world axis not carrying screen input for
the six axis-aligned views, and the horizontal diagonal complementary to the
screen-right diagonal for the four isometric views. -/
def specDepthDirection (view : ViewType) : Vector3D :=
  match view with
  | .front | .back => { x := 0, y := 0, z := 1 }
  | .top | .bottom => { x := 0, y := 1, z := 0 }
  | .left | .right => { x := 1, y := 0, z := 0 }
  | .isoFrontRight | .isoBackLeft => { x := 1, y := 0, z := -1 }
  | .isoFrontLeft | .isoBackRight => { x := 1, y := 0, z := 1 }

/-- The in-plane horizontal world delta computed by
`screenDeltaToWorldDelta` before the per-view remapping
(`worldDeltaX` in the source). -/
def worldDeltaXOf (deltaScreenX : ℚ) (camera : OrthographicCamera)
    (canvasWidth : ℚ) : ℚ :=
  (deltaScreenX / canvasWidth * 2) * (((camera.right - camera.left) / camera.zoom) / 2)

/-- A concrete symmetric orthographic camera (bounds `±1`, zoom 1) for the
C8 counterexample. -/
def exCamera : OrthographicCamera :=
  { left := -1, right := 1, top := 1, bottom := -1, near := 0, far := 0,
    zoom := 1, position := zeroVec,
    xAxis := { x := 1, y := 0, z := 0 }, yAxis := { x := 0, y := 1, z := 0 },
    zAxis := { x := 0, y := 0, z := 1 } }

/-- The sign with which an isometric view routes screen-right motion to the
world `x` axis (`0` for non-isometric views); from the source's switch. -/
def isoSignX : ViewType → ℚ
  | .isoFrontRight | .isoBackRight => 1
  | .isoFrontLeft | .isoBackLeft => -1
  | _ => 0

/-- The sign with which an isometric view routes screen-right motion to the
world `z` axis (`0` for non-isometric views); from the source's switch. -/
def isoSignZ : ViewType → ℚ
  | .isoFrontRight | .isoFrontLeft => 1
  | .isoBackRight | .isoBackLeft => -1
  | _ => 0

/-- The C10 failing input: a tab holding the single parentless object `P` at
local position `(10,0,0)`. -/
def exTabP : ProjectTab :=
  { objects := [exP], assemblies := [], undoStack := [], redoStack := [],
    hasUnsavedChanges := false }

/-- The record update applied to the reparented object by `reparentNode`. -/
def reparentedObj (newParentId : Option String) (newLocal : Vector3D)
    (obj : DraftObject) : DraftObject :=
  { obj with parentId := newParentId, localPosition := newLocal }

/-- Counterexample store for C2: `Q` is a parentless object rotated by 90
degrees about `x`. -/
def exQ : DraftObject :=
  { id := "Q", name := "Q", parentId := none,
    localPosition := { x := 0, y := 0, z := 0 },
    rotation := { x := 90, y := 0, z := 0 },
    dimensions := { width := 1, height := 1, depth := 1 } }

/-- Counterexample store for C2: `R` is an unrotated child of `Q`. -/
def exR : DraftObject :=
  { id := "R", name := "R", parentId := some "Q",
    localPosition := { x := 1, y := 0, z := 0 },
    rotation := { x := 0, y := 0, z := 0 },
    dimensions := { width := 1, height := 1, depth := 1 } }

/-- The record produced for `R` by the counterexample reparent: root parent,
local position equal to the old world position. -/
def exR2 : DraftObject :=
  { id := exR.id, name := exR.name, parentId := none,
    localPosition := (computeWorldTransform "R" [exQ, exR] []).position,
    rotation := exR.rotation, dimensions := exR.dimensions }

/-- A third parentless object used as a reparent target for the C2 witness. -/
def exS : DraftObject :=
  { id := "S", name := "S", parentId := none,
    localPosition := { x := 5, y := 7, z := 0 },
    rotation := { x := 0, y := 0, z := 0 },
    dimensions := { width := 1, height := 1, depth := 1 } }

/-- `Map.get` on the association-list model of the updates map. -/
def lookupUpdate (m : List (String × Vector3D)) (k : String) : Option Vector3D :=
  (m.find? (fun p => p.1 == k)).map Prod.snd

/-- The center coordinate of the `i`-th sorted object after applying the
updates map (the updated coordinate when present, the original otherwise). -/
def appliedCenter (distribution : DistributionType)
    (updates : List (String × Vector3D)) (sorted : List DraftObject)
    (i : ℕ) : ℚ :=
  match lookupUpdate updates (sorted.getD i default).id with
  | some v => distCoord distribution v
  | none => distCoord distribution (sorted.getD i default).localPosition

/-- The updates computed by `distributeObjects` in the non-degenerate case:
one entry per interior index `i` of the sorted selection, assigning center
`first + i · span/(n-1)`. -/
def interiorUpdates (axis : DistributionType) (sorted : List DraftObject) :
    List (String × Vector3D) :=
  (sorted.enum.filter
      (fun io => !(decide (io.1 = 0 ∨ io.1 = sorted.length - 1)))).map
    (fun io => (io.2.id,
      setDistCoord axis io.2.localPosition
        (distCoord axis sorted.headI.localPosition +
          (io.1 : ℚ) *
            ((distCoord axis sorted.getLastI.localPosition -
              distCoord axis sorted.headI.localPosition) /
              ((sorted.length : ℚ) - 1)))))

/-- A five-object selection (in scrambled order) for the C9 witness. -/
def exSel : List DraftObject :=
  [{ id := "a", name := "a", parentId := none,
     localPosition := { x := 0, y := 0, z := 0 },
     rotation := { x := 0, y := 0, z := 0 },
     dimensions := { width := 1, height := 1, depth := 1 } },
   { id := "b", name := "b", parentId := none,
     localPosition := { x := 10, y := 0, z := 0 },
     rotation := { x := 0, y := 0, z := 0 },
     dimensions := { width := 1, height := 1, depth := 1 } },
   { id := "c", name := "c", parentId := none,
     localPosition := { x := 1, y := 0, z := 0 },
     rotation := { x := 0, y := 0, z := 0 },
     dimensions := { width := 1, height := 1, depth := 1 } },
   { id := "d", name := "d", parentId := none,
     localPosition := { x := 7, y := 0, z := 0 },
     rotation := { x := 0, y := 0, z := 0 },
     dimensions := { width := 1, height := 1, depth := 1 } },
   { id := "e", name := "e", parentId := none,
     localPosition := { x := 2, y := 0, z := 0 },
     rotation := { x := 0, y := 0, z := 0 },
     dimensions := { width := 1, height := 1, depth := 1 } }]

/-- The C9 witness selection sorted by `x`. -/
def exSorted : List DraftObject :=
  sortByKey (fun o => distCoord .horizontal o.localPosition) exSel

/-- Witness store for C4: object `o1` parented to assembly `A`. -/
def exO1 : DraftObject :=
  { id := "o1", name := "o1", parentId := some "A",
    localPosition := { x := 1, y := 0, z := 0 },
    rotation := { x := 0, y := 0, z := 0 },
    dimensions := { width := 1, height := 1, depth := 1 } }

/-- Witness store for C4: object `o2` parented to assembly `B`. -/
def exO2 : DraftObject :=
  { id := "o2", name := "o2", parentId := some "B",
    localPosition := { x := 2, y := 0, z := 0 },
    rotation := { x := 0, y := 0, z := 0 },
    dimensions := { width := 1, height := 1, depth := 1 } }

/-- Witness store for C4: an unrelated root object `o3`. -/
def exO3 : DraftObject :=
  { id := "o3", name := "o3", parentId := none,
    localPosition := { x := 3, y := 0, z := 0 },
    rotation := { x := 0, y := 0, z := 0 },
    dimensions := { width := 1, height := 1, depth := 1 } }

/-- Witness store for C4: root assembly `A` with children `o1` and `B`. -/
def exA : Assembly :=
  { id := "A", name := "A", parentId := none, childIds := ["o1", "B"],
    color := "#ff0000", visible := true }

/-- Witness store for C4: nested assembly `B` (child of `A`) with child `o2`. -/
def exB : Assembly :=
  { id := "B", name := "B", parentId := some "A", childIds := ["o2"],
    color := "#00ff00", visible := true }

/-- The C4 witness object collection. -/
def exObjs : List DraftObject := [exO1, exO2, exO3]

/-- The C4 witness assembly collection. -/
def exAsms : List Assembly := [exA, exB]

theorem addVectors_comm (a b : Vector3D) : addVectors a b = addVectors b a := by
  simp [addVectors, add_comm]

theorem addVectors_zero (a : Vector3D) : addVectors a zeroVec = a := by
  simp [addVectors, zeroVec]

theorem find?_append_of_forall_neg {α : Type} {p : α → Bool} {l₁ : List α}
    (l₂ : List α) (h : ∀ a ∈ l₁, ¬p a = true) :
    (l₁ ++ l₂).find? p = l₂.find? p := by
  rw [List.find?_append, List.find?_eq_none.mpr h, Option.none_or]

/-! ## C6: grid snapping -/

theorem jsRound_intCast (n : ℤ) : jsRound (n : ℚ) = n := by
  unfold jsRound
  rw [Int.floor_int_add]
  norm_num

/-- C6: for every value `x` and nonzero grid increment `g`, `snapToGrid` is
idempotent, and `snapVectorToGrid` applies `snapToGrid` independently to
each of the three components. -/
theorem snapToGrid_idempotent_and_componentwise (x g : ℚ) (v : Vector3D)
    (hg : g ≠ 0) :
    snapToGrid (snapToGrid x g) g = snapToGrid x g ∧
    snapVectorToGrid v g =
      { x := snapToGrid v.x g, y := snapToGrid v.y g, z := snapToGrid v.z g } := by
  refine ⟨?_, rfl⟩
  unfold snapToGrid
  rw [mul_div_cancel_right₀ _ hg, jsRound_intCast]

/-- Witness for C6 at `x = 37/10`, `g = 1/2` (and the vector `(1,2,3)`). -/
theorem snapToGrid_idempotent_and_componentwise_witness :
    snapToGrid (snapToGrid (37 / 10) (1 / 2)) (1 / 2) = snapToGrid (37 / 10) (1 / 2) ∧
    snapVectorToGrid { x := 1, y := 2, z := 3 } (1 / 2) =
      { x := snapToGrid 1 (1 / 2), y := snapToGrid 2 (1 / 2),
        z := snapToGrid 3 (1 / 2) } :=
  snapToGrid_idempotent_and_componentwise (37 / 10) (1 / 2)
    { x := 1, y := 2, z := 3 } (by norm_num)

/-! ## C1: world transform of a parent chain -/

theorem findNode_append_head (pre : List DraftObject) (leaf : DraftObject)
    (rest : List DraftObject)
    (hnd : ((pre ++ leaf :: rest).map (fun o => o.id)).Nodup) :
    findNode leaf.id (pre ++ leaf :: rest) [] = some (Sum.inl leaf) := by
  have hleaf_not_pre : ∀ o ∈ pre, ¬(o.id == leaf.id) = true := by
    intro o ho
    simp only [beq_iff_eq]
    intro hid
    rw [List.map_append, List.nodup_append] at hnd
    have hmem : leaf.id ∈ pre.map (fun o => o.id) := by
      rw [← hid]; exact List.mem_map_of_mem _ ho
    have hmem2 : leaf.id ∈ (leaf :: rest).map (fun o => o.id) := by simp
    exact hnd.2.2 hmem hmem2
  unfold findNode
  rw [find?_append_of_forall_neg _ hleaf_not_pre]
  simp

theorem cwtF_chain (rest : List DraftObject) :
    ∀ (pre : List DraftObject) (fuel : ℕ) (leaf : DraftObject),
      isChainStore (leaf :: rest) →
      ((pre ++ leaf :: rest).map (fun o => o.id)).Nodup →
      (leaf :: rest).length ≤ fuel →
      computeWorldTransformF fuel leaf.id (pre ++ leaf :: rest) [] =
        { position := sumPositions (leaf :: rest),
          rotation := sumRotations (leaf :: rest) } := by
  induction rest with
  | nil =>
    intro pre fuel leaf hc hnd hfuel
    obtain ⟨fuel, rfl⟩ : ∃ f, fuel = f + 1 := by
      cases fuel with
      | zero => simp at hfuel
      | succ f => exact ⟨f, rfl⟩
    have hfind : findNode leaf.id (pre ++ [leaf]) [] = some (Sum.inl leaf) :=
      findNode_append_head pre leaf [] hnd
    have hpid : leaf.parentId = none := hc
    simp only [computeWorldTransformF, hfind, hpid, sumPositions, sumRotations,
      List.foldr, addVectors_zero]
  | cons nxt rest' ih =>
    intro pre fuel leaf hc hnd hfuel
    obtain ⟨fuel, rfl⟩ : ∃ f, fuel = f + 1 := by
      cases fuel with
      | zero => simp at hfuel
      | succ f => exact ⟨f, rfl⟩
    have hfind : findNode leaf.id (pre ++ leaf :: nxt :: rest') [] =
        some (Sum.inl leaf) :=
      findNode_append_head pre leaf (nxt :: rest') hnd
    obtain ⟨hpid, hc'⟩ := hc
    have happ : pre ++ leaf :: nxt :: rest' = (pre ++ [leaf]) ++ nxt :: rest' := by
      simp
    have hrec := ih (pre ++ [leaf]) fuel nxt hc'
      (by rw [← happ]; exact hnd)
      (by simpa using Nat.le_of_succ_le_succ hfuel)
    simp only [computeWorldTransformF, hfind, hpid]
    rw [happ, hrec]
    simp only [sumPositions, sumRotations, List.foldr]
    rw [addVectors_comm leaf.localPosition, addVectors_comm leaf.rotation]

/-- C1: for a chain of at most 129 nested objects with distinct ids, each
object's `parentId` pointing at the next object up the chain,
`computeWorldTransform` of the leaf returns the componentwise sum of every
ancestor's local position plus the leaf's local position, and likewise the
componentwise sum of the rotations. -/
theorem computeWorldTransform_chain_sum (leaf : DraftObject)
    (rest : List DraftObject) (hc : isChainStore (leaf :: rest))
    (hnd : ((leaf :: rest).map (fun o => o.id)).Nodup)
    (hlen : (leaf :: rest).length ≤ 129) :
    computeWorldTransform leaf.id (leaf :: rest) [] =
      { position := sumPositions (leaf :: rest),
        rotation := sumRotations (leaf :: rest) } := by
  have := cwtF_chain rest [] stdFuel leaf hc (by simpa using hnd)
    (le_trans hlen (by norm_num [stdFuel]))
  simpa [computeWorldTransform] using this

/-- Witness for C1: the two-object chain `C → P` resolves to the sum of the
two local transforms. -/
theorem computeWorldTransform_chain_sum_witness :
    computeWorldTransform "C" [exC, exP] [] =
      { position := sumPositions [exC, exP], rotation := sumRotations [exC, exP] } := by
  have h := computeWorldTransform_chain_sum exC [exP]
    (by constructor <;> rfl) (by decide) (by decide)
  simpa [exC] using h

/-! ## C5: undo / redo -/

theorem undo_iterate_applyMutations (fs : List (HistorySnapshot → HistorySnapshot)) :
    ∀ tab : ProjectTab,
      (undo^[fs.length] (applyMutations fs tab)).objects = tab.objects ∧
      (undo^[fs.length] (applyMutations fs tab)).assemblies = tab.assemblies ∧
      (undo^[fs.length] (applyMutations fs tab)).undoStack = tab.undoStack := by
  induction fs with
  | nil => intro tab; simp [applyMutations]
  | cons f fs' ih =>
    intro tab
    have hfold : applyMutations (f :: fs') tab =
        applyMutations fs' (applyHistoryMutation f tab) := rfl
    have hlen : (f :: fs').length = fs'.length + 1 := rfl
    rw [hfold, hlen, Function.iterate_succ_apply']
    obtain ⟨h1, h2, h3⟩ := ih (applyHistoryMutation f tab)
    set r := undo^[fs'.length] (applyMutations fs' (applyHistoryMutation f tab)) with hr
    have hstack : r.undoStack = tab.undoStack ++ [createSnapshot tab] := by
      rw [h3]; rfl
    have hlast : r.undoStack.getLast? = some (createSnapshot tab) := by
      rw [hstack]; exact List.getLast?_concat _
    unfold undo
    rw [hlast]
    refine ⟨rfl, rfl, ?_⟩
    simp only [hstack, List.dropLast_concat]

/-- C5: N history-pushing mutations followed by N `undo()` calls restore the
exact initial `objects` and `assemblies`; and after an `undo()` that popped
a snapshot, a single `redo()` restores the `objects` and `assemblies` that
were current immediately before that undo. -/
theorem undo_redo_restore (tab : ProjectTab)
    (fs : List (HistorySnapshot → HistorySnapshot)) (t : ProjectTab)
    (ht : t.undoStack ≠ []) :
    ((undo^[fs.length] (applyMutations fs tab)).objects = tab.objects ∧
      (undo^[fs.length] (applyMutations fs tab)).assemblies = tab.assemblies) ∧
    ((redo (undo t)).objects = t.objects ∧
      (redo (undo t)).assemblies = t.assemblies) := by
  obtain ⟨h1, h2, _⟩ := undo_iterate_applyMutations fs tab
  refine ⟨⟨h1, h2⟩, ?_⟩
  obtain ⟨last, hlast⟩ : ∃ l, t.undoStack.getLast? = some l := by
    cases h : t.undoStack.getLast? with
    | none => exact absurd (List.getLast?_eq_none_iff.mp h) ht
    | some l => exact ⟨l, rfl⟩
  unfold undo
  rw [hlast]
  unfold redo
  simp only [List.getLast?_concat, List.dropLast_concat, createSnapshot]
  exact ⟨trivial, trivial⟩

/-- Witness for C5: one concrete mutation on an empty tab undone once, and
the redo-after-undo property on a tab with one snapshot. -/
theorem undo_redo_restore_witness :
    ((undo^[[exMutation].length] (applyMutations [exMutation] exEmptyTab)).objects =
        exEmptyTab.objects ∧
      (undo^[[exMutation].length] (applyMutations [exMutation] exEmptyTab)).assemblies =
        exEmptyTab.assemblies) ∧
    ((redo (undo exTabWithHistory)).objects = exTabWithHistory.objects ∧
      (redo (undo exTabWithHistory)).assemblies = exTabWithHistory.assemblies) :=
  undo_redo_restore exEmptyTab [exMutation] exTabWithHistory
    (by simp [exTabWithHistory])

/-! ## C7: screenToWorld remapping and zero-depth plane -/

/-- C7: for each of the ten view configurations and every screen input,
`screenToWorld` is exactly the spec's per-view remapping applied to the
point unprojected through the orthographic camera, and the returned world
point has component exactly zero along the view's depth direction (it lies
on the view's zero-depth plane). -/
theorem screenToWorld_remap_and_zero_depth (screenX screenY : ℚ)
    (camera : OrthographicCamera) (view : ViewType) (canvasWidth canvasHeight : ℚ) :
    screenToWorld screenX screenY camera view canvasWidth canvasHeight =
      specViewRemap view
        (unprojectNDC camera (screenX / canvasWidth * 2 - 1)
          (-(screenY / canvasHeight) * 2 + 1)) ∧
    dotVec (screenToWorld screenX screenY camera view canvasWidth canvasHeight)
      (specDepthDirection view) = 0 := by
  constructor
  · cases view <;> rfl
  · cases view <;> simp [screenToWorld, specDepthDirection, dotVec]

/-! ## C8: the isometric screen-right split factor -/

/-- Counterexample to C8: in the iso-front-right view, a screen delta whose
in-plane horizontal world delta is exactly `1` produces an `x` component of
exactly `0.707 = 707/1000`, which is *not* `1 · (1/√2)`: the code scales by
the literal `0.707`, not by exactly `1/√2`. -/
theorem iso_factor_not_inv_sqrt_two :
    worldDeltaXOf 1 exCamera 2 = 1 ∧
    (screenDeltaToWorldDelta 1 0 exCamera .isoFrontRight 2 2).x = 707 / 1000 ∧
    ((707 : ℝ) / 1000) ≠ 1 / Real.sqrt 2 := by
  refine ⟨by norm_num [worldDeltaXOf, exCamera], by norm_num [screenDeltaToWorldDelta, exCamera], ?_⟩
  intro h
  have hs : Real.sqrt 2 * Real.sqrt 2 = 2 := Real.mul_self_sqrt (by norm_num)
  have hpos : (0 : ℝ) < Real.sqrt 2 := Real.sqrt_pos.mpr (by norm_num)
  have h2 : (707 : ℝ) * Real.sqrt 2 = 1000 := by
    field_simp at h
    linarith [h]
  nlinarith [hs, h2]

/-- C8 (amended): in each of the four isometric views, `screenToWorld` and
`screenDeltaToWorldDelta` split screen-right motion between the view's two
diagonal world axes with the fixed literal factor `0.707` (the code's
rational approximation of `1/√2`): the two affected components have equal
magnitude, each equal to the horizontal in-plane input scaled by exactly
`707/1000`, with signs per the view. -/
theorem iso_views_split_factor (screenX screenY deltaScreenX deltaScreenY : ℚ)
    (camera : OrthographicCamera) (canvasWidth canvasHeight : ℚ)
    (view : ViewType)
    (hview : view ∈ [ViewType.isoFrontRight, .isoFrontLeft, .isoBackRight, .isoBackLeft]) :
    (screenDeltaToWorldDelta deltaScreenX deltaScreenY camera view
        canvasWidth canvasHeight).x =
      isoSignX view * (707 / 1000 * worldDeltaXOf deltaScreenX camera canvasWidth) ∧
    (screenDeltaToWorldDelta deltaScreenX deltaScreenY camera view
        canvasWidth canvasHeight).z =
      isoSignZ view * (707 / 1000 * worldDeltaXOf deltaScreenX camera canvasWidth) ∧
    |(screenDeltaToWorldDelta deltaScreenX deltaScreenY camera view
        canvasWidth canvasHeight).x| =
      |(screenDeltaToWorldDelta deltaScreenX deltaScreenY camera view
          canvasWidth canvasHeight).z| ∧
    (screenToWorld screenX screenY camera view canvasWidth canvasHeight).x =
      isoSignX view *
        (707 / 1000 * (unprojectNDC camera (screenX / canvasWidth * 2 - 1)
            (-(screenY / canvasHeight) * 2 + 1)).x) ∧
    (screenToWorld screenX screenY camera view canvasWidth canvasHeight).z =
      isoSignZ view *
        (707 / 1000 * (unprojectNDC camera (screenX / canvasWidth * 2 - 1)
            (-(screenY / canvasHeight) * 2 + 1)).x) ∧
    |(screenToWorld screenX screenY camera view canvasWidth canvasHeight).x| =
      |(screenToWorld screenX screenY camera view canvasWidth canvasHeight).z| := by
  have habs : ∀ a b : ℚ, a = -b → |a| = |b| := by
    intro a b h; rw [h, abs_neg]
  fin_cases hview <;>
    refine ⟨?_, ?_, ?_, ?_, ?_, ?_⟩ <;>
      simp only [screenDeltaToWorldDelta, screenToWorld, worldDeltaXOf,
        isoSignX, isoSignZ] <;>
        first
          | ring1
          | exact habs _ _ (by ring1)

/-- Witness for C8 at the concrete camera, screen delta `(1,0)` and screen
point `(1,1)` in the iso-front-left view. -/
theorem iso_views_split_factor_witness :
    (screenDeltaToWorldDelta 1 0 exCamera .isoFrontLeft 2 2).x =
      isoSignX .isoFrontLeft * (707 / 1000 * worldDeltaXOf 1 exCamera 2) ∧
    (screenDeltaToWorldDelta 1 0 exCamera .isoFrontLeft 2 2).z =
      isoSignZ .isoFrontLeft * (707 / 1000 * worldDeltaXOf 1 exCamera 2) ∧
    |(screenDeltaToWorldDelta 1 0 exCamera .isoFrontLeft 2 2).x| =
      |(screenDeltaToWorldDelta 1 0 exCamera .isoFrontLeft 2 2).z| ∧
    (screenToWorld 1 1 exCamera .isoFrontLeft 2 2).x =
      isoSignX .isoFrontLeft *
        (707 / 1000 * (unprojectNDC exCamera (1 / 2 * 2 - 1) (-(1 / 2) * 2 + 1)).x) ∧
    (screenToWorld 1 1 exCamera .isoFrontLeft 2 2).z =
      isoSignZ .isoFrontLeft *
        (707 / 1000 * (unprojectNDC exCamera (1 / 2 * 2 - 1) (-(1 / 2) * 2 + 1)).x) ∧
    |(screenToWorld 1 1 exCamera .isoFrontLeft 2 2).x| =
      |(screenToWorld 1 1 exCamera .isoFrontLeft 2 2).z| :=
  iso_views_split_factor 1 1 1 0 exCamera 2 2 .isoFrontLeft (by simp)

/-! ## C3: rejection conditions of reparentNode -/

/-- C3: `reparentNode` is rejected exactly when the new parent is the node
itself, is among the node's descendants, or sits under an ancestor chain of
length at least 128 — and every rejected call returns both collections
unchanged. -/
theorem reparentNode_rejected_iff (nodeId : String) (newParentId : Option String)
    (objects : List DraftObject) (assemblies : List Assembly) :
    ((validateHierarchy nodeId newParentId objects assemblies).valid = false ↔
      (newParentId = some nodeId ∨
        (∃ p, newParentId = some p ∧ p ∈ getDescendants nodeId objects assemblies) ∨
        (∃ p, newParentId = some p ∧
          128 ≤ (getAncestors p objects assemblies).length))) ∧
    ((validateHierarchy nodeId newParentId objects assemblies).valid = false →
      reparentNode nodeId newParentId objects assemblies = (objects, assemblies)) := by
  constructor
  · cases newParentId with
    | none => simp [validateHierarchy]
    | some p =>
      simp only [validateHierarchy]
      split_ifs with h1 h2 h3
      · exact ⟨fun _ => Or.inl (by rw [h1]), fun _ => rfl⟩
      · exact ⟨fun _ => Or.inr (Or.inl ⟨p, rfl, h2⟩), fun _ => rfl⟩
      · exact ⟨fun _ => Or.inr (Or.inr ⟨p, rfl, h3⟩), fun _ => rfl⟩
      · constructor
        · intro h; exact absurd h (by simp)
        · rintro (h | ⟨q, hq, hmem⟩ | ⟨q, hq, hlen⟩)
          · exact absurd (Option.some.inj h).symm h1
          · exact absurd ((Option.some.inj hq) ▸ hmem) h2
          · exact absurd ((Option.some.inj hq) ▸ hlen) h3
  · intro h
    unfold reparentNode
    rw [if_pos h]

/-- Witness for C3: reparenting `a` to itself is rejected on the empty store
and leaves both collections unchanged. -/
theorem reparentNode_rejected_iff_witness :
    (validateHierarchy "a" (some "a") [] []).valid = false ∧
    reparentNode "a" (some "a") [] [] = ([], []) :=
  ⟨by decide, (reparentNode_rejected_iff "a" (some "a") [] []).2 (by decide)⟩

/-! ## C10: updateObjectPosition -/

/-- C10 (code bug): `updateObjectPosition("P", (5,0,0))` on a parentless
object at `(10,0,0)` leaves the object at world position `(-5,0,0)`, not the
requested `(5,0,0)`: the source passes `obj.id` instead of `obj.parentId` to
`worldToLocalPosition`, so it subtracts the object's own world position from
the target instead of converting the target relative to the parent chain. -/
theorem updateObjectPosition_world_mismatch :
    (computeWorldTransform "P"
        (updateObjectPosition "P" { x := 5, y := 0, z := 0 } exTabP).objects
        (updateObjectPosition "P" { x := 5, y := 0, z := 0 } exTabP).assemblies).position =
      { x := -5, y := 0, z := 0 } ∧
    ({ x := -5, y := 0, z := 0 } : Vector3D) ≠ { x := 5, y := 0, z := 0 } := by
  constructor
  · norm_num [updateObjectPosition, exTabP, exP, computeWorldTransform,
      computeWorldTransformF, stdFuel, findNode, worldToLocalPosition,
      subtractVectors, addVectors, identityTransform, zeroVec, List.find?]
  · norm_num [Vector3D.mk.injEq]

/-! ## C2: reparentNode and the world transform -/

theorem cwtF_assembly_irrelevant (fuel : ℕ) :
    ∀ (nodeId : String) (objects : List DraftObject)
      (assemblies assemblies' : List Assembly),
      computeWorldTransformF fuel nodeId objects assemblies =
        computeWorldTransformF fuel nodeId objects assemblies' := by
  induction fuel with
  | zero => intro _ _ _ _; rfl
  | succ f ih =>
    intro nodeId objects assemblies assemblies'
    simp only [computeWorldTransformF, findNode]
    cases h : objects.find? (fun o => o.id == nodeId) with
    | some o =>
      simp only
      cases o.parentId with
      | none => rfl
      | some pid => simp only [ih pid objects assemblies assemblies']
    | none =>
      simp only
      cases assemblies.find? (fun a => a.id == nodeId) <;>
        cases assemblies'.find? (fun a => a.id == nodeId) <;> rfl

theorem find?_map_id_preserving (g : DraftObject → DraftObject)
    (hg : ∀ o, (g o).id = o.id) (targetId nodeId : String)
    (objects : List DraftObject) (hne : nodeId ≠ targetId) :
    (objects.map (fun o => if o.id = targetId then g o else o)).find?
        (fun o => o.id == nodeId) =
      objects.find? (fun o => o.id == nodeId) := by
  rw [List.find?_map]
  have hp : ((fun o : DraftObject => o.id == nodeId) ∘
      (fun o => if o.id = targetId then g o else o)) =
      (fun o : DraftObject => o.id == nodeId) := by
    funext o
    by_cases h : o.id = targetId <;> simp [h, hg]
  rw [hp]
  cases h : objects.find? (fun o => o.id == nodeId) with
  | none => rfl
  | some o =>
    have hid : o.id = nodeId := by
      have := List.find?_some h
      simpa using this
    simp [hid, hne]

theorem find?_map_id_preserving_target (g : DraftObject → DraftObject)
    (hg : ∀ o, (g o).id = o.id) (targetId : String)
    (objects : List DraftObject) (o : DraftObject)
    (hfind : objects.find? (fun x => x.id == targetId) = some o) :
    (objects.map (fun x => if x.id = targetId then g x else x)).find?
        (fun x => x.id == targetId) = some (g o) := by
  rw [List.find?_map]
  have hp : ((fun x : DraftObject => x.id == targetId) ∘
      (fun x => if x.id = targetId then g x else x)) =
      (fun x : DraftObject => x.id == targetId) := by
    funext x
    by_cases h : x.id = targetId <;> simp [h, hg]
  rw [hp, hfind]
  have hid : o.id = targetId := by
    have := List.find?_some hfind
    simpa using this
  simp [hid]

theorem cwtF_replace_outside_reach (g : DraftObject → DraftObject)
    (hg : ∀ o, (g o).id = o.id) (targetId : String) :
    ∀ (fuel : ℕ) (nodeId : String) (objects : List DraftObject)
      (assemblies : List Assembly),
      targetId ∉ reachF fuel nodeId objects assemblies →
      computeWorldTransformF fuel nodeId
          (objects.map (fun o => if o.id = targetId then g o else o)) assemblies =
        computeWorldTransformF fuel nodeId objects assemblies := by
  intro fuel
  induction fuel with
  | zero => intro _ _ _ _; rfl
  | succ f ih =>
    intro nodeId objects assemblies hreach
    have hne : nodeId ≠ targetId := by
      intro h
      exact hreach (by simp [reachF, h])
    simp only [computeWorldTransformF, findNode,
      find?_map_id_preserving g hg targetId nodeId objects hne]
    cases h : objects.find? (fun o => o.id == nodeId) with
    | some o =>
      simp only
      cases hp : o.parentId with
      | none => rfl
      | some pid =>
        have hnr : targetId ∉ reachF f pid objects assemblies := by
          intro hmem
          apply hreach
          simp only [reachF, findNode, h, hp]
          exact List.mem_cons_of_mem _ hmem
        simp only [ih pid objects assemblies hnr]
    | none =>
      simp only
      cases assemblies.find? (fun a => a.id == nodeId) <;> rfl

theorem cwtF_mono_of_stops :
    ∀ (fuel : ℕ) (nodeId : String) (objects : List DraftObject)
      (assemblies : List Assembly),
      stopsF fuel nodeId objects assemblies = true →
      ∀ fuel', fuel ≤ fuel' →
        computeWorldTransformF fuel' nodeId objects assemblies =
          computeWorldTransformF fuel nodeId objects assemblies := by
  intro fuel
  induction fuel with
  | zero => intro _ _ _ h; simp [stopsF] at h
  | succ f ih =>
    intro nodeId objects assemblies hstop fuel' hle
    obtain ⟨f', rfl⟩ : ∃ k, fuel' = k + 1 := by
      cases fuel' with
      | zero => omega
      | succ k => exact ⟨k, rfl⟩
    simp only [computeWorldTransformF]
    cases h : findNode nodeId objects assemblies with
    | none => rfl
    | some node =>
      cases node with
      | inr a => rfl
      | inl o =>
        simp only
        cases hp : o.parentId with
        | none => rfl
        | some pid =>
          have hstop' : stopsF f pid objects assemblies = true := by
            simpa [stopsF, h, hp] using hstop
          simp only [ih pid objects assemblies hstop' f' (by omega)]

theorem subtractVectors_add_cancel (a b : Vector3D) :
    addVectors b (subtractVectors a b) = a := by
  cases a with
  | mk a1 a2 a3 =>
    cases b with
    | mk b1 b2 b3 =>
      simp only [addVectors, subtractVectors, Vector3D.mk.injEq]
      exact ⟨by ring, by ring, by ring⟩

theorem reparentedObj_parentId (p : Option String) (l : Vector3D)
    (obj : DraftObject) : (reparentedObj p l obj).parentId = p := rfl

theorem reparentedObj_localPosition (p : Option String) (l : Vector3D)
    (obj : DraftObject) : (reparentedObj p l obj).localPosition = l := rfl

theorem cwt_assembly_irrelevant (nodeId : String) (objects : List DraftObject)
    (assemblies assemblies' : List Assembly) :
    computeWorldTransform nodeId objects assemblies =
      computeWorldTransform nodeId objects assemblies' :=
  cwtF_assembly_irrelevant stdFuel nodeId objects assemblies assemblies'

theorem cwtF_succ (fuel : ℕ) (nodeId : String) (objects : List DraftObject)
    (assemblies : List Assembly) :
    computeWorldTransformF (fuel + 1) nodeId objects assemblies =
      match findNode nodeId objects assemblies with
      | none => identityTransform
      | some (Sum.inr _) => identityTransform
      | some (Sum.inl node) =>
        match node.parentId with
        | none => { position := node.localPosition, rotation := node.rotation }
        | some pid =>
          let parentTransform := computeWorldTransformF fuel pid objects assemblies
          { position := addVectors parentTransform.position node.localPosition,
            rotation := addVectors parentTransform.rotation node.rotation } := rfl

theorem cwt_unfold_object (nodeId : String) (objects : List DraftObject)
    (assemblies : List Assembly) (node : DraftObject)
    (hfind : objects.find? (fun x => x.id == nodeId) = some node) :
    computeWorldTransform nodeId objects assemblies =
      match node.parentId with
      | none => { position := node.localPosition, rotation := node.rotation }
      | some pid =>
        { position := addVectors
            (computeWorldTransformF (stdFuel - 1) pid objects assemblies).position
            node.localPosition,
          rotation := addVectors
            (computeWorldTransformF (stdFuel - 1) pid objects assemblies).rotation
            node.rotation } := by
  have hf : stdFuel = (stdFuel - 1) + 1 := by norm_num [stdFuel]
  have hnode : findNode nodeId objects assemblies = some (Sum.inl node) := by
    simp [findNode, hfind]
  unfold computeWorldTransform
  rw [hf, cwtF_succ, hnode]
  rfl

/-- C2 (amended): for an object node and a validated reparent target that is
not the node itself, not below the node (the node's id is not on the new
parent's resolved chain) and whose chain terminates within the modelled
depth, `reparentNode` preserves the *position* component of
`computeWorldTransform` — the node's local rotation is carried over
unchanged, so the rotation component is not preserved in general. -/
theorem reparentNode_preserves_world_position (nodeId : String)
    (newParentId : Option String) (objects : List DraftObject)
    (assemblies : List Assembly) (o : DraftObject)
    (hfind : objects.find? (fun x => x.id == nodeId) = some o)
    (hvalid : (validateHierarchy nodeId newParentId objects assemblies).valid = true)
    (hreach : ∀ pid, newParentId = some pid →
      nodeId ∉ reachF (stdFuel - 1) pid objects assemblies ∧
      stopsF (stdFuel - 1) pid objects assemblies = true) :
    (computeWorldTransform nodeId
        (reparentNode nodeId newParentId objects assemblies).1
        (reparentNode nodeId newParentId objects assemblies).2).position =
      (computeWorldTransform nodeId objects assemblies).position := by
  have hid : o.id = nodeId := by
    have := List.find?_some hfind
    simpa using this
  have hnode : findNode nodeId objects assemblies = some (Sum.inl o) := by
    simp [findNode, hfind]
  have hg : ∀ x, (reparentedObj newParentId
      (worldToLocalPosition
        (computeWorldTransform nodeId objects assemblies).position
        newParentId objects assemblies) x).id = x.id := fun _ => rfl
  have hobjs : (reparentNode nodeId newParentId objects assemblies).1 =
      objects.map (fun obj =>
        if obj.id = nodeId then
          reparentedObj newParentId
            (worldToLocalPosition
              (computeWorldTransform nodeId objects assemblies).position
              newParentId objects assemblies) obj
        else obj) := by
    unfold reparentNode
    rw [if_neg (by simp [hvalid]), hnode]
    rfl
  rw [hobjs, cwt_assembly_irrelevant nodeId _
    (reparentNode nodeId newParentId objects assemblies).2 assemblies]
  have hfind' :
      (objects.map (fun obj =>
        if obj.id = nodeId then
          reparentedObj newParentId
            (worldToLocalPosition
              (computeWorldTransform nodeId objects assemblies).position
              newParentId objects assemblies) obj
        else obj)).find? (fun x => x.id == nodeId) =
      some (reparentedObj newParentId
        (worldToLocalPosition
          (computeWorldTransform nodeId objects assemblies).position
          newParentId objects assemblies) o) :=
    find?_map_id_preserving_target _ hg nodeId objects o hfind
  rw [cwt_unfold_object nodeId _ assemblies _ hfind']
  simp only [reparentedObj_parentId, reparentedObj_localPosition]
  cases hnp : newParentId with
  | none => simp [worldToLocalPosition]
  | some pid =>
    obtain ⟨hnr, hst⟩ := hreach pid hnp
    have hcwtfull :
        computeWorldTransform pid objects assemblies =
        computeWorldTransformF (stdFuel - 1) pid objects assemblies :=
      cwtF_mono_of_stops (stdFuel - 1) pid objects assemblies hst stdFuel
        (by norm_num [stdFuel])
    simp only [worldToLocalPosition, hcwtfull]
    rw [cwtF_replace_outside_reach
      (reparentedObj (some pid)
        (subtractVectors (computeWorldTransform nodeId objects assemblies).position
          (computeWorldTransformF (stdFuel - 1) pid objects assemblies).position))
      (fun _ => rfl) nodeId (stdFuel - 1) pid objects assemblies hnr]
    exact subtractVectors_add_cancel
      (computeWorldTransform nodeId objects assemblies).position
      (computeWorldTransformF (stdFuel - 1) pid objects assemblies).position

theorem cwtF_unfold_object (fuel : ℕ) (nodeId : String)
    (objects : List DraftObject) (assemblies : List Assembly)
    (node : DraftObject)
    (hfind : objects.find? (fun x => x.id == nodeId) = some node) :
    computeWorldTransformF (fuel + 1) nodeId objects assemblies =
      match node.parentId with
      | none => { position := node.localPosition, rotation := node.rotation }
      | some pid =>
        { position := addVectors
            (computeWorldTransformF fuel pid objects assemblies).position
            node.localPosition,
          rotation := addVectors
            (computeWorldTransformF fuel pid objects assemblies).rotation
            node.rotation } := by
  have hnode : findNode nodeId objects assemblies = some (Sum.inl node) := by
    simp [findNode, hfind]
  rw [cwtF_succ, hnode]

/-- Counterexample to C2: reparenting `R` (child of the 90-degree-rotated
`Q`) to the root is a valid, depth-legal, non-cycle reparent, and it
preserves the world position — but the reported world *rotation* changes
from `(90,0,0)` to `(0,0,0)`, because `reparentNode` recomputes only the
local position and carries the local rotation over unchanged. -/
theorem reparentNode_rotation_not_preserved :
    (computeWorldTransform "R" (reparentNode "R" none [exQ, exR] []).1
        (reparentNode "R" none [exQ, exR] []).2).rotation ≠
      (computeWorldTransform "R" [exQ, exR] []).rotation ∧
    (computeWorldTransform "R" (reparentNode "R" none [exQ, exR] []).1
        (reparentNode "R" none [exQ, exR] []).2).position =
      (computeWorldTransform "R" [exQ, exR] []).position := by
  have hfR : [exQ, exR].find? (fun x => x.id == "R") = some exR := by decide
  have hR : computeWorldTransform "R" [exQ, exR] [] =
      { position := { x := 1, y := 0, z := 0 },
        rotation := { x := 90, y := 0, z := 0 } } := by
    rw [cwt_unfold_object "R" [exQ, exR] [] exR hfR]
    have h511 : stdFuel - 1 = 510 + 1 := by norm_num [stdFuel]
    rw [show exR.parentId = some "Q" from rfl]
    simp only
    rw [h511, cwtF_unfold_object 510 "Q" [exQ, exR] [] exQ (by decide)]
    rw [show exQ.parentId = none from rfl]
    simp only [exQ, exR, addVectors]
    norm_num
  have hrep : reparentNode "R" none [exQ, exR] [] = ([exQ, exR2], []) := by
    unfold reparentNode
    rw [if_neg (by decide)]
    rfl
  have hfR2 : [exQ, exR2].find? (fun x => x.id == "R") = some exR2 := by
    rfl
  have hafter : computeWorldTransform "R"
      (reparentNode "R" none [exQ, exR] []).1
      (reparentNode "R" none [exQ, exR] []).2 =
      { position := (computeWorldTransform "R" [exQ, exR] []).position,
        rotation := exR.rotation } := by
    rw [hrep]
    rw [cwt_unfold_object "R" _ [] _ hfR2]
    rfl
  rw [hafter, hR]
  constructor
  · norm_num [exR, Vector3D.mk.injEq]
  · rfl

/-- Witness for the amended C2: moving `C` from under `P` to under the
sibling root `S` preserves its world position. -/
theorem reparentNode_preserves_world_position_witness :
    (computeWorldTransform "C"
        (reparentNode "C" (some "S") [exP, exC, exS] []).1
        (reparentNode "C" (some "S") [exP, exC, exS] []).2).position =
      (computeWorldTransform "C" [exP, exC, exS] []).position :=
  reparentNode_preserves_world_position "C" (some "S") [exP, exC, exS] [] exC
    (by decide) (by decide)
    (fun pid hpid => by
      cases hpid
      exact ⟨by decide, by decide⟩)

/-! ## C9: distributeObjects -/

theorem distCoord_setDistCoord (d : DistributionType) (v : Vector3D) (c : ℚ) :
    distCoord d (setDistCoord d v c) = c := by
  cases d <;> rfl

theorem insertByKey_length {α : Type} (key : α → ℚ) (x : α) (l : List α) :
    (insertByKey key x l).length = l.length + 1 := by
  induction l with
  | nil => rfl
  | cons y ys ih =>
    simp only [insertByKey]
    split_ifs <;> simp [ih]

theorem sortByKey_length {α : Type} (key : α → ℚ) (l : List α) :
    (sortByKey key l).length = l.length := by
  induction l with
  | nil => rfl
  | cons x xs ih => simp [sortByKey, insertByKey_length, ih]

theorem insertByKey_perm {α : Type} (key : α → ℚ) (x : α) (l : List α) :
    (insertByKey key x l).Perm (x :: l) := by
  induction l with
  | nil => exact List.Perm.refl _
  | cons y ys ih =>
    simp only [insertByKey]
    split_ifs
    · exact List.Perm.refl _
    · exact (List.Perm.cons y ih).trans (List.Perm.swap x y ys)

theorem sortByKey_perm {α : Type} (key : α → ℚ) (l : List α) :
    (sortByKey key l).Perm l := by
  induction l with
  | nil => exact List.Perm.refl _
  | cons x xs ih =>
    exact (insertByKey_perm key x (sortByKey key xs)).trans (List.Perm.cons x ih)

theorem foldl_skip_filter (g : ℕ × DraftObject → Vector3D) (N : ℕ) :
    ∀ (l : List (ℕ × DraftObject)) (acc : List (String × Vector3D)),
      l.foldl (fun u io => if io.1 = 0 ∨ io.1 = N then u else mapSet u io.2.id (g io))
          acc =
        (l.filter (fun io => !(decide (io.1 = 0 ∨ io.1 = N)))).foldl
          (fun u io => mapSet u io.2.id (g io)) acc := by
  intro l
  induction l with
  | nil => intro acc; rfl
  | cons io l' ih =>
    intro acc
    by_cases h : io.1 = 0 ∨ io.1 = N
    · rw [List.foldl_cons, if_pos h, ih acc, List.filter_cons,
        show (!(decide (io.1 = 0 ∨ io.1 = N))) = false by simp [h]]
      rfl
    · rw [List.foldl_cons, if_neg h, ih (mapSet acc io.2.id (g io)),
        List.filter_cons,
        show (!(decide (io.1 = 0 ∨ io.1 = N))) = true by simp [h]]
      rfl

theorem foldl_mapSet_fresh (g : ℕ × DraftObject → Vector3D) :
    ∀ (l : List (ℕ × DraftObject)) (acc : List (String × Vector3D)),
      (acc.map Prod.fst ++ l.map (fun io => io.2.id)).Nodup →
      l.foldl (fun u io => mapSet u io.2.id (g io)) acc =
        acc ++ l.map (fun io => (io.2.id, g io)) := by
  intro l
  induction l with
  | nil => intro acc _; simp
  | cons io l' ih =>
    intro acc hnd
    have hfresh : ¬ acc.any (fun p => p.1 == io.2.id) = true := by
      simp only [List.any_eq_true, beq_iff_eq, not_exists, not_and]
      intro p hp hpk
      rw [List.nodup_append] at hnd
      have h1 : p.1 ∈ acc.map Prod.fst := List.mem_map_of_mem _ hp
      have h2 : p.1 ∈ (io :: l').map (fun io => io.2.id) := by simp [hpk]
      exact hnd.2.2 h1 h2
    have hstep : mapSet acc io.2.id (g io) = acc ++ [(io.2.id, g io)] := by
      simp only [mapSet]
      rw [if_neg hfresh]
    simp only [List.foldl_cons, hstep]
    rw [ih (acc ++ [(io.2.id, g io)])
      (by
        have : (acc ++ [(io.2.id, g io)]).map Prod.fst ++
            l'.map (fun io => io.2.id) =
            acc.map Prod.fst ++ (io.2.id :: l'.map (fun io => io.2.id)) := by
          simp
        rw [this]
        simpa using hnd)]
    simp

theorem lookup_map_entry_none (g : ℕ × DraftObject → Vector3D)
    (l : List (ℕ × DraftObject)) (k : String)
    (hk : k ∉ l.map (fun io => io.2.id)) :
    lookupUpdate (l.map (fun io => (io.2.id, g io))) k = none := by
  unfold lookupUpdate
  rw [List.find?_eq_none.mpr]
  · rfl
  · intro p hp
    simp only [List.mem_map] at hp
    obtain ⟨io, hio, rfl⟩ := hp
    simp only [beq_iff_eq]
    intro h
    exact hk (h ▸ List.mem_map_of_mem _ hio)

theorem lookup_map_entry_some (g : ℕ × DraftObject → Vector3D) :
    ∀ (l : List (ℕ × DraftObject)),
      (l.map (fun io => io.2.id)).Nodup →
      ∀ io ∈ l, lookupUpdate (l.map (fun x => (x.2.id, g x))) io.2.id =
        some (g io) := by
  intro l
  induction l with
  | nil => intro _ io h; exact absurd h (by simp)
  | cons a l' ih =>
    intro hnd io hio
    rcases List.mem_cons.mp hio with rfl | hio'
    · unfold lookupUpdate
      simp [List.find?_cons_of_pos]
    · have hne : a.2.id ≠ io.2.id := by
        intro h
        rw [List.map_cons, List.nodup_cons] at hnd
        exact hnd.1 (h ▸ List.mem_map_of_mem _ hio')
      unfold lookupUpdate
      rw [List.map_cons, List.find?_cons_of_neg _ (by simpa using hne)]
      exact ih (by rw [List.map_cons, List.nodup_cons] at hnd; exact hnd.2) io hio'

theorem nodup_ids_index_inj (sorted : List DraftObject)
    (hnd : (sorted.map (fun o => o.id)).Nodup) (i j : ℕ)
    (hi : i < sorted.length) (hj : j < sorted.length)
    (h : (sorted.get ⟨i, hi⟩).id = (sorted.get ⟨j, hj⟩).id) : i = j := by
  have hinj := List.nodup_iff_injective_get.mp hnd
  have hlen : (sorted.map (fun o => o.id)).length = sorted.length := by simp
  have hget : (sorted.map (fun o => o.id)).get ⟨i, by omega⟩ =
      (sorted.map (fun o => o.id)).get ⟨j, by omega⟩ := by
    simp only [List.get_eq_getElem, List.getElem_map]
    simpa [List.get_eq_getElem] using h
  have := hinj hget
  simpa using congrArg Fin.val this

theorem interior_ids_nodup (sorted : List DraftObject)
    (hnd : (sorted.map (fun o => o.id)).Nodup) (p : ℕ × DraftObject → Bool) :
    ((sorted.enum.filter p).map (fun io => io.2.id)).Nodup := by
  have hmap : sorted.enum.map (fun io : ℕ × DraftObject => io.2.id) =
      sorted.map (fun o => o.id) := by
    rw [show (fun io : ℕ × DraftObject => io.2.id) =
        (fun o : DraftObject => o.id) ∘ Prod.snd from rfl, ← List.map_map,
      List.enum_map_snd]
  exact List.Nodup.sublist
    (List.Sublist.map _ (List.filter_sublist sorted.enum))
    (hmap ▸ hnd)

theorem distributeObjects_eq_interiorUpdates (objects : List DraftObject)
    (axis : DistributionType) (h3 : 3 ≤ objects.length)
    (hnd : ((sortByKey (fun o => distCoord axis o.localPosition) objects).map
      (fun o => o.id)).Nodup)
    (hspan :
      distCoord axis (sortByKey (fun o => distCoord axis o.localPosition)
          objects).getLastI.localPosition -
        distCoord axis (sortByKey (fun o => distCoord axis o.localPosition)
          objects).headI.localPosition ≠ 0) :
    distributeObjects objects axis =
      interiorUpdates axis
        (sortByKey (fun o => distCoord axis o.localPosition) objects) := by
  have hlen : (sortByKey (fun o => distCoord axis o.localPosition) objects).length =
      objects.length := sortByKey_length _ _
  simp only [distributeObjects, interiorUpdates]
  rw [if_neg (by omega)]
  rw [if_neg (by
    push_neg
    exact ⟨by omega, hspan⟩)]
  rw [foldl_skip_filter, foldl_mapSet_fresh]
  · simp
  · simp only [List.map_nil, List.nil_append]
    exact interior_ids_nodup _ hnd _

/-- C9: for a selection of at least 3 objects with pairwise-distinct ids
whose extreme sorted centers differ, `distributeObjects` leaves the first
and last sorted objects without an update and assigns the interior objects
evenly spaced centers, so that every pair of consecutive applied centers
differs by exactly `span/(n-1)`; for fewer than 3 objects, or zero span, it
returns no updates. -/
theorem distributeObjects_even_gaps (objects : List DraftObject)
    (axis : DistributionType) (sorted : List DraftObject)
    (hsorted : sortByKey (fun o => distCoord axis o.localPosition) objects = sorted) :
    ((3 ≤ objects.length) → ((sorted.map (fun o => o.id)).Nodup) →
      (distCoord axis sorted.getLastI.localPosition -
        distCoord axis sorted.headI.localPosition ≠ 0) →
      lookupUpdate (distributeObjects objects axis) sorted.headI.id = none ∧
      lookupUpdate (distributeObjects objects axis) sorted.getLastI.id = none ∧
      (∀ i, i + 1 < sorted.length →
        appliedCenter axis (distributeObjects objects axis) sorted (i + 1) -
          appliedCenter axis (distributeObjects objects axis) sorted i =
          (distCoord axis sorted.getLastI.localPosition -
            distCoord axis sorted.headI.localPosition) /
            ((sorted.length : ℚ) - 1))) ∧
    (objects.length < 3 → distributeObjects objects axis = []) ∧
    (distCoord axis sorted.getLastI.localPosition =
        distCoord axis sorted.headI.localPosition →
      distributeObjects objects axis = []) := by
  subst hsorted
  set sorted := sortByKey (fun o => distCoord axis o.localPosition) objects with hs
  refine ⟨?_, ?_, ?_⟩
  case refine_2 =>
    intro h
    simp only [distributeObjects]
    rw [if_pos h]
  case refine_3 =>
    intro hz
    by_cases h : objects.length < 3
    · simp only [distributeObjects]; rw [if_pos h]
    · simp only [distributeObjects]
      rw [if_neg h, if_pos (Or.inr (by rw [← hs, hz, sub_self]))]
  intro h3 hnd hspan
  have hchar := distributeObjects_eq_interiorUpdates objects axis h3
    (by rw [← hs] at *; exact hnd) (by rw [← hs] at *; exact hspan)
  rw [← hs] at hchar
  have hlen : sorted.length = objects.length := sortByKey_length _ _
  have hne : sorted ≠ [] := by
    intro h
    rw [h] at hlen
    simp at hlen
    omega
  have hpos : 0 < sorted.length := List.length_pos.mpr hne
  have hhead : sorted.headI = sorted.getD 0 default := by
    cases h : sorted with
    | nil => exact absurd h hne
    | cons a l => rfl
  have hlast : sorted.getLastI = sorted.getD (sorted.length - 1) default := by
    rw [List.getLastI_eq_getLast?, List.getLast?_eq_getElem?,
      List.getD_eq_getElem?_getD,
      List.getElem?_eq_getElem (show sorted.length - 1 < sorted.length by omega)]
    rfl
  have hget : ∀ (j : ℕ) (hj : j < sorted.length),
      sorted.getD j default = sorted.get ⟨j, hj⟩ := by
    intro j hj
    rw [List.getD_eq_getElem _ _ hj]
    rfl
  have hmemInterior : ∀ j (hj : j < sorted.length), j ≠ 0 →
      j ≠ sorted.length - 1 →
      (j, sorted.get ⟨j, hj⟩) ∈ sorted.enum.filter
        (fun io => !(decide (io.1 = 0 ∨ io.1 = sorted.length - 1))) := by
    intro j hj hj0 hjl
    rw [List.mem_filter]
    constructor
    · rw [List.mem_enum_iff_getElem?]
      exact List.getElem?_eq_getElem hj
    · simp [hj0, hjl]
  have hnotmem : ∀ j (hj : j < sorted.length), (j = 0 ∨ j = sorted.length - 1) →
      (sorted.get ⟨j, hj⟩).id ∉
        (sorted.enum.filter
          (fun io => !(decide (io.1 = 0 ∨ io.1 = sorted.length - 1)))).map
          (fun io => io.2.id) := by
    intro j hj hbound hmem
    rw [List.mem_map] at hmem
    obtain ⟨io, hio, hid⟩ := hmem
    rw [List.mem_filter] at hio
    obtain ⟨hioe, hiof⟩ := hio
    rw [List.mem_enum_iff_getElem?] at hioe
    have hlt : io.1 < sorted.length := by
      by_contra hge
      rw [List.getElem?_eq_none (by omega)] at hioe
      exact Option.noConfusion hioe
    have hio2 : io.2 = sorted.get ⟨io.1, hlt⟩ := by
      have := List.getElem?_eq_getElem hlt
      rw [this] at hioe
      exact (Option.some.inj hioe).symm
    have heq : io.1 = j := by
      apply nodup_ids_index_inj sorted hnd io.1 j hlt hj
      rw [← hio2, hid]
    simp only [heq] at hiof
    rcases hbound with h0 | hl
    · simp [h0] at hiof
    · simp [hl] at hiof
  have happlied_boundary : ∀ (j : ℕ) (hj : j < sorted.length),
      (j = 0 ∨ j = sorted.length - 1) →
      appliedCenter axis (distributeObjects objects axis) sorted j =
        distCoord axis (sorted.get ⟨j, hj⟩).localPosition := by
    intro j hj hbound
    unfold appliedCenter
    rw [hget j hj, hchar]
    unfold interiorUpdates
    rw [lookup_map_entry_none _ _ _ (hnotmem j hj hbound)]
  have happlied_interior : ∀ (j : ℕ) (hj : j < sorted.length), j ≠ 0 →
      j ≠ sorted.length - 1 →
      appliedCenter axis (distributeObjects objects axis) sorted j =
        distCoord axis sorted.headI.localPosition +
          (j : ℚ) * ((distCoord axis sorted.getLastI.localPosition -
            distCoord axis sorted.headI.localPosition) /
            ((sorted.length : ℚ) - 1)) := by
    intro j hj hj0 hjl
    unfold appliedCenter
    rw [hget j hj, hchar]
    unfold interiorUpdates
    rw [lookup_map_entry_some _ _ (interior_ids_nodup _ hnd _)
      (j, sorted.get ⟨j, hj⟩) (hmemInterior j hj hj0 hjl)]
    simp [distCoord_setDistCoord]
  refine ⟨?_, ?_, ?_⟩
  · rw [hchar]
    unfold interiorUpdates
    apply lookup_map_entry_none
    have h0 : (0 : ℕ) < sorted.length := by omega
    have := hnotmem 0 h0 (Or.inl rfl)
    rw [hhead, hget 0 h0]
    exact this
  · rw [hchar]
    unfold interiorUpdates
    apply lookup_map_entry_none
    have hl : sorted.length - 1 < sorted.length := by omega
    have := hnotmem (sorted.length - 1) hl (Or.inr rfl)
    rw [hlast, hget (sorted.length - 1) hl]
    exact this
  · intro i hi1
    have hn3 : 3 ≤ sorted.length := by omega
    have hq : ((sorted.length : ℚ) - 1) ≠ 0 := by
      have : (3 : ℚ) ≤ (sorted.length : ℚ) := by exact_mod_cast hn3
      intro h
      nlinarith
    by_cases hi0 : i = 0
    · subst hi0
      have h1ne : (1 : ℕ) ≠ sorted.length - 1 := by omega
      rw [happlied_interior 1 (by omega) (by omega) h1ne,
        happlied_boundary 0 (by omega) (Or.inl rfl)]
      rw [hhead, hget 0 (by omega)]
      push_cast
      ring
    · by_cases hil : i + 1 = sorted.length - 1
      · have hii : i = sorted.length - 2 := by omega
        rw [happlied_boundary (i + 1) (by omega) (Or.inr hil),
          happlied_interior i (by omega) hi0 (by omega)]
        rw [show sorted.get ⟨i + 1, by omega⟩ =
            sorted.getD (i + 1) default from (hget (i + 1) (by omega)).symm,
          show (i + 1 : ℕ) = sorted.length - 1 from hil, ← hlast]
        have hcast : (i : ℚ) = (sorted.length : ℚ) - 2 := by
          have : ((sorted.length - 2 : ℕ) : ℚ) = (sorted.length : ℚ) - 2 := by
            push_cast [Nat.cast_sub (by omega : 2 ≤ sorted.length)]
            ring
          rw [hii, this]
        rw [hcast]
        field_simp
        ring
      · have h1ne : i + 1 ≠ sorted.length - 1 := hil
        rw [happlied_interior (i + 1) (by omega) (by omega) h1ne,
          happlied_interior i (by omega) hi0 (by omega)]
        push_cast
        ring

/-- Witness for C9 on the five-object selection: first and last sorted
objects receive no update, and the consecutive applied centers at indices
0..2 differ by exactly `span/4`. -/
theorem distributeObjects_even_gaps_witness :
    lookupUpdate (distributeObjects exSel .horizontal) exSorted.headI.id = none ∧
    lookupUpdate (distributeObjects exSel .horizontal) exSorted.getLastI.id = none ∧
    (appliedCenter .horizontal (distributeObjects exSel .horizontal) exSorted 2 -
      appliedCenter .horizontal (distributeObjects exSel .horizontal) exSorted 1 =
      (distCoord .horizontal exSorted.getLastI.localPosition -
        distCoord .horizontal exSorted.headI.localPosition) /
        ((exSorted.length : ℚ) - 1)) := by
  have h := (distributeObjects_even_gaps exSel .horizontal exSorted rfl).1
    (by norm_num [exSel])
    (by decide)
    (by
      show (10 : ℚ) - 0 ≠ 0
      norm_num)
  exact ⟨h.1, h.2.1, h.2.2 1 (by decide)⟩

/-! ## C4: deleteNodeCascade -/

theorem getDescendantsLoop_acc_mono (objects : List DraftObject)
    (assemblies : List Assembly) :
    ∀ (fuel : ℕ) (queue acc : List String) (x : String), x ∈ acc →
      x ∈ getDescendantsLoop fuel queue acc objects assemblies := by
  intro fuel
  induction fuel with
  | zero => intro queue acc x hx; exact hx
  | succ f ih =>
    intro queue acc x hx
    cases queue with
    | nil => exact hx
    | cons q rest =>
      simp only [getDescendantsLoop]
      exact ih _ _ x (List.mem_append_left _ hx)

theorem getDescendantsLoop_children_of_queued (objects : List DraftObject)
    (assemblies : List Assembly) :
    ∀ (fuel : ℕ) (queue acc : List String),
      bfsDone fuel queue objects assemblies = true →
      ∀ q ∈ queue, ∀ c ∈ bfsChildren q objects assemblies,
        c ∈ getDescendantsLoop fuel queue acc objects assemblies := by
  intro fuel
  induction fuel with
  | zero => intro queue acc hdone; simp [bfsDone] at hdone
  | succ f ih =>
    intro queue acc hdone q hq c hc
    cases queue with
    | nil => exact absurd hq (by simp)
    | cons q0 rest =>
      simp only [getDescendantsLoop]
      simp only [bfsDone] at hdone
      rcases List.mem_cons.mp hq with rfl | hq'
      · exact getDescendantsLoop_acc_mono objects assemblies f _ _ c
          (List.mem_append_right _ hc)
      · exact ih _ _ hdone q (List.mem_append_left _ hq') c hc

theorem getDescendantsLoop_closed (objects : List DraftObject)
    (assemblies : List Assembly) :
    ∀ (fuel : ℕ) (queue acc : List String),
      bfsDone fuel queue objects assemblies = true →
      ∀ d ∈ getDescendantsLoop fuel queue acc objects assemblies,
        d ∈ acc ∨ ∀ c ∈ bfsChildren d objects assemblies,
          c ∈ getDescendantsLoop fuel queue acc objects assemblies := by
  intro fuel
  induction fuel with
  | zero => intro queue acc hdone; simp [bfsDone] at hdone
  | succ f ih =>
    intro queue acc hdone d hd
    cases queue with
    | nil => exact Or.inl hd
    | cons q0 rest =>
      simp only [getDescendantsLoop] at hd ⊢
      simp only [bfsDone] at hdone
      rcases ih _ _ hdone d hd with hacc | hchild
      · rcases List.mem_append.mp hacc with h | h
        · exact Or.inl h
        · refine Or.inr fun c hc => ?_
          exact getDescendantsLoop_children_of_queued objects assemblies f _ _
            hdone d (List.mem_append_right _ h) c hc
      · exact Or.inr hchild

/-- Under a terminating traversal, the deleted-id set
`nodeId :: getDescendants nodeId` is closed under `bfsChildren`. -/
theorem descendants_closed (nodeId : String) (objects : List DraftObject)
    (assemblies : List Assembly) (node : Node)
    (hfind : findNode nodeId objects assemblies = some node)
    (hdone : bfsDone stdFuel [nodeId] objects assemblies = true)
    (d : String) (hd : d ∈ nodeId :: getDescendants nodeId objects assemblies)
    (c : String) (hc : c ∈ bfsChildren d objects assemblies) :
    c ∈ nodeId :: getDescendants nodeId objects assemblies := by
  have hdesc : getDescendants nodeId objects assemblies =
      getDescendantsLoop stdFuel [nodeId] [] objects assemblies := by
    unfold getDescendants getDescendantsF
    rw [hfind]
  rcases List.mem_cons.mp hd with rfl | hd'
  · exact List.mem_cons_of_mem _ (by
      rw [hdesc]
      exact getDescendantsLoop_children_of_queued objects assemblies stdFuel
        [d] [] hdone d (by simp) c hc)
  · rw [hdesc] at hd'
    rcases getDescendantsLoop_closed objects assemblies stdFuel [nodeId] []
      hdone d hd' with h | h
    · exact absurd h (by simp)
    · exact List.mem_cons_of_mem _ (by rw [hdesc]; exact h c hc)

/-- A node whose `parentId` resolves appears among its parent's
`bfsChildren`, given the childIds converse invariant for assembly parents. -/
theorem mem_bfsChildren_of_parent (objects : List DraftObject)
    (assemblies : List Assembly)
    (w2o : ∀ o ∈ objects, ∀ a ∈ assemblies, o.parentId = some a.id →
      o.id ∈ a.childIds)
    (w2a : ∀ b ∈ assemblies, ∀ a ∈ assemblies, b.parentId = some a.id →
      b.id ∈ a.childIds)
    (childId : String) (p : String)
    (hchild :
      (∃ o ∈ objects, o.id = childId ∧ o.parentId = some p) ∨
      (∃ b ∈ assemblies, b.id = childId ∧ b.parentId = some p))
    (pnode : Node) (hp : findNode p objects assemblies = some pnode) :
    childId ∈ bfsChildren p objects assemblies := by
  unfold bfsChildren
  rw [hp]
  cases pnode with
  | inl po =>
    rcases hchild with ⟨o, ho, rfl, hop⟩ | ⟨b, hb, rfl, hbp⟩
    · apply List.mem_append_left
      exact List.mem_map_of_mem _ (List.mem_filter.mpr ⟨ho, by simp [hop]⟩)
    · apply List.mem_append_right
      exact List.mem_map_of_mem _ (List.mem_filter.mpr ⟨hb, by simp [hbp]⟩)
  | inr pa =>
    have hinv : pa ∈ assemblies ∧ pa.id = p := by
      unfold findNode at hp
      cases h : objects.find? (fun o => o.id == p) with
      | some o => simp only [h] at hp; exact absurd hp (by simp)
      | none =>
        simp only [h] at hp
        cases h2 : assemblies.find? (fun a => a.id == p) with
        | none => simp only [h2] at hp; exact absurd hp (by simp)
        | some a =>
          simp only [h2, Option.some.injEq] at hp
          have ha : a = pa := Sum.inr.inj hp
          subst ha
          refine ⟨List.mem_of_find?_eq_some h2, ?_⟩
          simpa using List.find?_some h2
    obtain ⟨hmem, hpid⟩ := hinv
    rcases hchild with ⟨o, ho, rfl, hop⟩ | ⟨b, hb, rfl, hbp⟩
    · exact w2o o ho pa hmem (by rw [hop, hpid])
    · exact w2a b hb pa hmem (by rw [hbp, hpid])

/-- C4: for a node present in the store — under the data-model invariants
(every `parentId` resolves; a node parented to an assembly is listed in that
assembly's `childIds`) and a terminating descendant traversal —
`deleteNodeCascade` (a) keeps exactly the objects whose id is not the node
or one of its transitive descendants, (b) keeps exactly the assemblies
likewise (preserving their ids and parents), (c) strips the deleted id from
the former parent's `childIds`, and (d) leaves no remaining node whose
`parentId` refers to a deleted id. -/
theorem deleteNodeCascade_removes_and_no_dangling (nodeId : String)
    (objects : List DraftObject) (assemblies : List Assembly) (node : Node)
    (hfind : findNode nodeId objects assemblies = some node)
    (hdone : bfsDone stdFuel [nodeId] objects assemblies = true)
    (w1o : ∀ o ∈ objects, ∀ p, o.parentId = some p →
      (findNode p objects assemblies).isSome = true)
    (w1a : ∀ b ∈ assemblies, ∀ p, b.parentId = some p →
      (findNode p objects assemblies).isSome = true)
    (w2o : ∀ o ∈ objects, ∀ a ∈ assemblies, o.parentId = some a.id →
      o.id ∈ a.childIds)
    (w2a : ∀ b ∈ assemblies, ∀ a ∈ assemblies, b.parentId = some a.id →
      b.id ∈ a.childIds) :
    (∀ x, x ∈ (deleteNodeCascade nodeId objects assemblies).1 ↔
      (x ∈ objects ∧
        x.id ∉ nodeId :: getDescendants nodeId objects assemblies)) ∧
    (∀ a ∈ (deleteNodeCascade nodeId objects assemblies).2,
      a.id ∉ nodeId :: getDescendants nodeId objects assemblies ∧
      ∃ b ∈ assemblies, a.id = b.id ∧ a.parentId = b.parentId) ∧
    (∀ b ∈ assemblies, b.id ∉ nodeId :: getDescendants nodeId objects assemblies →
      ∃ a ∈ (deleteNodeCascade nodeId objects assemblies).2, a.id = b.id) ∧
    (∀ P, Sum.elim DraftObject.parentId Assembly.parentId node = some P →
      ∀ a ∈ (deleteNodeCascade nodeId objects assemblies).2, a.id = P →
        nodeId ∉ a.childIds) ∧
    (∀ x ∈ (deleteNodeCascade nodeId objects assemblies).1, ∀ p,
      x.parentId = some p →
        p ∉ nodeId :: getDescendants nodeId objects assemblies) ∧
    (∀ a ∈ (deleteNodeCascade nodeId objects assemblies).2, ∀ p,
      a.parentId = some p →
        p ∉ nodeId :: getDescendants nodeId objects assemblies) := by
  have hnodangle : ∀ (childId p : String),
      ((∃ o ∈ objects, o.id = childId ∧ o.parentId = some p) ∨
        (∃ b ∈ assemblies, b.id = childId ∧ b.parentId = some p)) →
      (findNode p objects assemblies).isSome = true →
      p ∈ nodeId :: getDescendants nodeId objects assemblies →
      childId ∈ nodeId :: getDescendants nodeId objects assemblies := by
    intro childId p hchild hsome hpD
    obtain ⟨pnode, hpnode⟩ : ∃ pn, findNode p objects assemblies = some pn := by
      cases h : findNode p objects assemblies with
      | none => rw [h] at hsome; exact absurd hsome (by simp)
      | some pn => exact ⟨pn, rfl⟩
    exact descendants_closed nodeId objects assemblies node hfind hdone p hpD
      childId (mem_bfsChildren_of_parent objects assemblies w2o w2a childId p
        hchild pnode hpnode)
  have hobj1 : (deleteNodeCascade nodeId objects assemblies).1 =
      objects.filter (fun obj =>
        obj.id ∉ nodeId :: getDescendants nodeId objects assemblies) := by
    unfold deleteNodeCascade
    rw [hfind]
    cases hpar : Sum.elim DraftObject.parentId Assembly.parentId node with
    | none => simp only [hpar]
    | some P => simp only [hpar]
  have hmemD : ∀ x, x ∈ (deleteNodeCascade nodeId objects assemblies).1 ↔
      (x ∈ objects ∧
        x.id ∉ nodeId :: getDescendants nodeId objects assemblies) := by
    intro x
    rw [hobj1, List.mem_filter]
    simp
  have hasm : ∀ a ∈ (deleteNodeCascade nodeId objects assemblies).2,
      ∃ b ∈ assemblies,
        b.id ∉ nodeId :: getDescendants nodeId objects assemblies ∧
        a.id = b.id ∧ a.parentId = b.parentId ∧
        (a.childIds = b.childIds ∨
          a.childIds = b.childIds.filter (fun cid => cid ≠ nodeId)) := by
    intro a ha
    unfold deleteNodeCascade at ha
    rw [hfind] at ha
    cases hpar : Sum.elim DraftObject.parentId Assembly.parentId node with
    | none =>
      simp only [hpar] at ha
      rw [List.mem_filter] at ha
      exact ⟨a, ha.1, by simpa using ha.2, rfl, rfl, Or.inl rfl⟩
    | some P =>
      simp only [hpar, List.mem_map] at ha
      obtain ⟨b, hb, rfl⟩ := ha
      rw [List.mem_filter] at hb
      by_cases hbP : b.id = P
      · rw [if_pos hbP]
        exact ⟨b, hb.1, by simpa using hb.2, rfl, rfl, Or.inr rfl⟩
      · rw [if_neg hbP]
        exact ⟨b, hb.1, by simpa using hb.2, rfl, rfl, Or.inl rfl⟩
  refine ⟨hmemD, ?_, ?_, ?_, ?_, ?_⟩
  · intro a ha
    obtain ⟨b, hb, hbD, hid, hpid, _⟩ := hasm a ha
    exact ⟨hid ▸ hbD, b, hb, hid, hpid⟩
  · intro b hb hbD
    unfold deleteNodeCascade
    rw [hfind]
    cases hpar : Sum.elim DraftObject.parentId Assembly.parentId node with
    | none =>
      simp only [hpar]
      exact ⟨b, List.mem_filter.mpr ⟨hb, by simpa using hbD⟩, rfl⟩
    | some P =>
      simp only [hpar, List.mem_map]
      by_cases hbP : b.id = P
      · exact ⟨{ b with childIds := b.childIds.filter (fun cid => cid ≠ nodeId) },
          ⟨b, List.mem_filter.mpr ⟨hb, by simpa using hbD⟩,
            by simp only [if_pos hbP]⟩, rfl⟩
      · exact ⟨b, ⟨b, List.mem_filter.mpr ⟨hb, by simpa using hbD⟩,
          by simp only [if_neg hbP]⟩, rfl⟩
  · intro P hP a ha haP
    unfold deleteNodeCascade at ha
    rw [hfind] at ha
    simp only [hP, List.mem_map] at ha
    obtain ⟨b, hbmem, rfl⟩ := ha
    by_cases hbP : b.id = P
    · rw [if_pos hbP]
      simp only [List.mem_filter]
      intro h
      have := h.2
      simp at this
    · rw [if_neg hbP] at haP ⊢
      exact absurd haP hbP
  · intro x hx p hp hpD
    obtain ⟨hxmem, hxD⟩ := (hmemD x).mp hx
    exact hxD (hnodangle x.id p (Or.inl ⟨x, hxmem, rfl, hp⟩)
      (w1o x hxmem p hp) hpD)
  · intro a ha p hp hpD
    obtain ⟨b, hbmem, hbD, hid, hpid, _⟩ := hasm a ha
    have hbp : b.parentId = some p := hpid ▸ hp
    exact hbD (hid ▸ hnodangle a.id p
      (Or.inr ⟨b, hbmem, hid.symm, hbp⟩) (w1a b hbmem p hbp) hpD)

/-- Witness for C4 on the concrete store: deleting assembly `A` keeps
exactly the objects outside the deleted set (`o1` is removed, `o3` stays). -/
theorem deleteNodeCascade_removes_and_no_dangling_witness :
    (exO1 ∈ (deleteNodeCascade "A" exObjs exAsms).1 ↔
      (exO1 ∈ exObjs ∧ exO1.id ∉ "A" :: getDescendants "A" exObjs exAsms)) ∧
    (exO3 ∈ (deleteNodeCascade "A" exObjs exAsms).1 ↔
      (exO3 ∈ exObjs ∧ exO3.id ∉ "A" :: getDescendants "A" exObjs exAsms)) := by
  have h := deleteNodeCascade_removes_and_no_dangling "A" exObjs exAsms
    (Sum.inr exA) (by decide) (by decide)
    (by
      intro o ho p hp
      fin_cases ho <;>
        first
          | (injection hp with h2; subst h2; decide)
          | exact absurd hp (by simp [exO3]))
    (by
      intro b hb p hp
      fin_cases hb <;>
        first
          | (injection hp with h2; subst h2; decide)
          | exact absurd hp (by simp [exA]))
    (by decide) (by decide)
  exact ⟨h.1 exO1, h.1 exO3⟩

end DraftPlan
